import Mathlib

/-!
Verification of the single-table Texas Hold'em server (server.js) and its
hand evaluator (pokerEvaluator.js).

The JavaScript source is shallowly embedded: JS numbers used as chip counts,
bets and raise amounts are modelled as `Int` (all arithmetic the server
performs on them is integer arithmetic: addition, subtraction, `Math.min`,
`Math.max`, `Math.floor` of a division, `%`); mutation of the in-memory
`TABLE` singleton is modelled as explicit state passing over `TableState`;
outbound websocket traffic that the claims reference (error messages, chip
collection, timer announcements) is modelled as a list of `OutMsg` values
returned next to the new state.  Purely informational broadcasts that carry
no decisions (`logToAll`, `broadcastState`, private hole-card messages) are
not tracked.  `Math.random`-driven shuffling is modelled by passing the
shuffled deck to `startGame` as an argument, and `Date.now()` by passing the
current time `now` to the handlers that read the clock.
-/

namespace Poker


/-! ### Cards (pokerEvaluator.js, server.js mkDeck)

A card is a rank (13 symbols, ordered 2..A) and a suit (4 symbols); the JS
code stores it as a two-character string and reads rank and suit back by
position, so a structural pair is a faithful model. -/

structure Card where
  rank : Fin 13
  suit : Fin 4
deriving DecidableEq

def dfltCard : Card := ⟨0, 0⟩

/-- rankValue: index of the rank in the RANKS table, as a JS number. -/
def rankValue (r : Fin 13) : Int := (r : Nat)

/-! ### Sorting helper

Array.prototype.sort with a numeric comparator; all comparators used by the
source induce a total order that is antisymmetric on the elements actually
compared, so an insertion sort with the corresponding boolean `le` computes
the same sorted array. -/

def insertLe {α : Type} (le : α → α → Bool) (x : α) : List α → List α
  | [] => [x]
  | y :: ys => if le x y then x :: y :: ys else y :: insertLe le x ys

def sortBy {α : Type} (le : α → α → Bool) : List α → List α
  | [] => []
  | x :: xs => insertLe le x (sortBy le xs)

/-! ### getCombinations (pokerEvaluator.js)

The JS helper enumerates, in lexicographic order of positions, all k-element
subsequences of the input array.  The recursion below produces the same list:
subsequences containing the head first (head consed onto each (k-1)-subset of
the tail), then those avoiding the head. -/

def getCombinations {α : Type} : Nat → List α → List (List α)
  | 0, _ => [[]]
  | _ + 1, [] => []
  | k + 1, x :: xs =>
      ((getCombinations k xs).map (fun c => x :: c)) ++ getCombinations (k + 1) xs

/-! ### evaluate5 (pokerEvaluator.js) -/

structure Eval5 where
  score : Int
  handName : String
deriving DecidableEq

/-- First-occurrence deduplication, the order a JS Set built from a list
yields on iteration.  The fuel argument (initialised to the list length,
which filtering never increases) keeps the recursion structural. -/
def uniqFirstAux : Nat → List (Fin 13) → List (Fin 13)
  | 0, _ => []
  | _, [] => []
  | fuel + 1, x :: xs => x :: uniqFirstAux fuel (xs.filter (fun y => y ≠ x))

def uniqFirst (l : List (Fin 13)) : List (Fin 13) := uniqFirstAux l.length l

/-- The straight scan of evaluate5: slide a window of width 5 over the sorted
distinct rank values, remembering the top value of the last window whose ends
differ by 4; then the wheel (A-2-3-4-5) special case overrides with high
card 5 (value 3).  Runs only when at least 5 distinct ranks exist, as in the
source. -/
def straightScan (values : List Int) : Bool × Option Int :=
  if 5 ≤ values.length then
    if values.contains 12 && decide (values.take 4 = [0, 1, 2, 3]) then
      (true, some 3)
    else
      (List.range (values.length - 4)).foldl
        (fun acc i =>
          if values.getD (i + 4) 0 - values.getD i 0 = 4 then
            (true, some (values.getD (i + 4) 0))
          else acc)
        (false, none)
  else (false, none)

/-- The classification if-chain at the end of evaluate5, over the quantities
the function computed just before it: the straight and flush flags, the high
card of the detected straight, the dominant entry of the rank-count table,
whether the second entry of that table is a pair, and the highest sorted
rank.  Factored out of evaluate5 verbatim so its case analysis can be stated
once. -/
def classify5 (straight flush : Bool) (highStraight : Option Int)
    (c0 : Fin 13 × Nat) (c1pair2 : Bool) (lastRank : Fin 13) : Eval5 :=
  if straight && flush then
    if highStraight = some 12 then ⟨9000000, "Royal Flush"⟩
    else ⟨8000000 + highStraight.getD 0, "Straight Flush"⟩
  else if c0.2 = 4 then ⟨7000000 + rankValue c0.1, "Four of a Kind"⟩
  else if c0.2 = 3 ∧ c1pair2 then ⟨6000000 + rankValue c0.1, "Full House"⟩
  else if flush then ⟨5000000 + rankValue lastRank, "Flush"⟩
  else if straight then ⟨4000000 + highStraight.getD 0, "Straight"⟩
  else if c0.2 = 3 then ⟨3000000 + rankValue c0.1, "Three of a Kind"⟩
  else if c0.2 = 2 ∧ c1pair2 then ⟨2000000 + rankValue c0.1, "Two Pair"⟩
  else if c0.2 = 2 then ⟨1000000 + rankValue c0.1, "One Pair"⟩
  else ⟨rankValue lastRank, "High Card"⟩

/-- evaluate5: score one 5-card hand.  Mirrors the source: sort ranks
ascending, detect flush and straight, build the rank-count table sorted by
count then rank (both descending), then classify through the if-chain,
folding category and primary tie-break rank into one integer score. -/
def evaluate5 (hand : List Card) : Eval5 :=
  let ranks : List (Fin 13) :=
    sortBy (fun a b => decide ((a : Nat) ≤ (b : Nat))) (hand.map Card.rank)
  let suits : List (Fin 4) := hand.map Card.suit
  let flush : Bool :=
    match suits with
    | [] => true
    | s0 :: _ => suits.all (fun s => s = s0)
  let uniqueRanks : List (Fin 13) := uniqFirst ranks
  let values : List Int :=
    sortBy (fun a b => decide (a ≤ b)) (uniqueRanks.map rankValue)
  let sc := straightScan values
  let straight : Bool := sc.1
  let highStraight : Option Int := sc.2
  let countsArr : List (Fin 13 × Nat) :=
    sortBy (fun a b => decide (b.2 < a.2 ∨ (a.2 = b.2 ∧ (b.1 : Nat) ≤ (a.1 : Nat))))
      (uniqueRanks.map (fun r => (r, ranks.count r)))
  let c0 : Fin 13 × Nat := countsArr.headD (0, 0)
  let c1pair2 : Bool :=
    match countsArr.get? 1 with
    | some e => decide (e.2 = 2)
    | none => false
  classify5 straight flush highStraight c0 c1pair2 (ranks.getLastD 0)

/-! ### evaluate7 (pokerEvaluator.js) -/

structure Best where
  score : Int
  handName : String
  hand : List Card
deriving DecidableEq

/-- The loop of evaluate7: fold over the combinations keeping the first
strictly best one seen so far. -/
def bestLoop : List (List Card) → Best → Best
  | [], b => b
  | c :: cs, b =>
      bestLoop cs
        (if (evaluate5 c).score > b.score then
          ⟨(evaluate5 c).score, (evaluate5 c).handName, c⟩
        else b)

def evaluate7 (cards : List Card) : Best :=
  bestLoop (getCombinations 5 cards) ⟨-1, "", []⟩

/-- The 9-category order of the spec, royal and straight flushes sharing the
top tier.  Any other string maps to the bottom. -/
def category (n : String) : Nat :=
  if n = "Royal Flush" then 8
  else if n = "Straight Flush" then 8
  else if n = "Four of a Kind" then 7
  else if n = "Full House" then 6
  else if n = "Flush" then 5
  else if n = "Straight" then 4
  else if n = "Three of a Kind" then 3
  else if n = "Two Pair" then 2
  else if n = "One Pair" then 1
  else 0

/-! ### Table state (server.js)

The process-wide TABLE singleton: 6 seats, the player registry (a JS object,
modelled as an insertion-ordered association list with unique keys), the
optional active Round and the persistent dealer button.  Player ids are the
uuid strings the server mints. -/

abbrev PId := String

structure Player where
  chips : Int
  cards : List Card
  seat : Option Nat
  folded : Bool
  active : Bool
  bet : Int
deriving DecidableEq

/-- The per-hand Round object built by startGame.  The JS object never
receives a turnPlayerId property (broadcastState puts one on the outgoing
wire snapshot only), so reading g.turnPlayerId yields undefined; the field
is modelled as an Option that startGame initialises to none and that no
function ever sets. -/
structure Round where
  deck : List Card
  community : List Card
  pot : Int
  smallBlind : Int
  bigBlind : Int
  dealerIndex : Nat
  seatOrder : List (PId × Nat)
  stage : String
  currentBet : Int
  minRaise : Int
  actionCount : Nat
  turnIndex : Nat
  toCall : Int
  turnEnd : Option Int
  showdownComplete : Bool
  turnPlayerId : Option PId
deriving DecidableEq

structure TableState where
  seats : List (Option PId)
  players : List (PId × Player)
  game : Option Round
  dealerIndex : Nat
deriving DecidableEq

/-- Outbound traffic the claims talk about.  logToAll and broadcastState
are pure notifications carrying no decisions and are not tracked; private
hole-card sends and the reveal broadcast are likewise omitted. -/
inductive OutMsg
  | errorTo (pid : PId) (message : String)
  | turnMsg (pid : PId) (turnEnd : Int)
  | collect (pid : PId) (amount : Int)
  | gameStarted
  | gameEnded (winnerIds : List PId)
deriving DecidableEq

def stPreflop : String := "preflop"

def stFlop : String := "flop"

def stTurn : String := "turn"

def stRiver : String := "river"

def aFold : String := "fold"

def aCall : String := "call"

def aCheck : String := "check"

def aRaise : String := "raise"

def msgNoGame : String := "No game in progress"

def msgNotYourTurn : String := "Not your turn"

def msgUnknownAction : String := "Unknown action"

def msgRaiseAtLeast (n : Int) : String := "Raise must be at least " ++ toString n

def msgAlreadyTook : String := "Already seated, cannot take another seat"

def msgGameInProgress : String := "Game in progress: cannot change seats"

/-! Registry access: reading TABLE.players by id, in-place mutation of one
player object, and the delete performed on disconnect. -/

def lookupP (pid : PId) : List (PId × Player) → Option Player
  | [] => none
  | (k, p) :: rest => if k = pid then some p else lookupP pid rest

def setP (pid : PId) (f : Player → Player) : List (PId × Player) → List (PId × Player)
  | [] => []
  | (k, p) :: rest => if k = pid then (k, f p) :: rest else (k, p) :: setP pid f rest

def removeP (pid : PId) : List (PId × Player) → List (PId × Player)
  | [] => []
  | (k, p) :: rest => if k = pid then rest else (k, p) :: removeP pid rest

/-! Helpers (server.js activePlayers, numActive, nextActiveIndex,
everyoneMatchedCurrentBet). -/

def activePs (g : Round) (players : List (PId × Player)) : List Player :=
  g.seatOrder.filterMap (fun so =>
    match lookupP so.1 players with
    | some p => if p.active && !p.folded then some p else none
    | none => none)

def activeIds (g : Round) (players : List (PId × Player)) : List PId :=
  g.seatOrder.filterMap (fun so =>
    match lookupP so.1 players with
    | some p => if p.active && !p.folded then some so.1 else none
    | none => none)

def numActive (g : Round) (players : List (PId × Player)) : Nat :=
  (activePs g players).length

/-- nextActiveIndex: scan steps 1..L from fromIndex, wrapping, for the first
active unfolded seat; none models the -1 not-found result. -/
def nextActiveIndex (g : Round) (players : List (PId × Player)) (fromIndex : Nat) :
    Option Nat :=
  let L := g.seatOrder.length
  (List.range L).findSome? (fun step =>
    let idx := (fromIndex + step + 1) % L
    match g.seatOrder.get? idx with
    | some so =>
        match lookupP so.1 players with
        | some p => if p.active && !p.folded then some idx else none
        | none => none
    | none => none)

def everyoneMatchedCurrentBet (g : Round) (players : List (PId × Player)) : Bool :=
  let aps := activePs g players
  if aps.length ≤ 1 then true
  else aps.all (fun p => p.bet = g.currentBet || (p.chips = 0 && p.bet ≤ g.currentBet))

/-! Turn timer (server.js clearTurnTimer / startTurnTimer).  The timeout
callback is the onTimeout handler below; a cleared timer never fires, so
onTimeout is only invoked while a game with an armed deadline exists. -/

def clearTurnTimer (s : TableState) : TableState :=
  match s.game with
  | some g => { s with game := some { g with turnEnd := none } }
  | none => s

def startTurnTimer (s : TableState) (now : Int) : TableState × List OutMsg :=
  match s.game with
  | none => (s, [])
  | some g =>
      match g.seatOrder.get? (g.turnIndex % g.seatOrder.length) with
      | none => (s, [])
      | some so =>
          ({ s with game := some { g with turnEnd := some (now + 20000) } },
           [OutMsg.turnMsg so.1 (now + 20000)])

/-! Settlement (server.js awardPotAndEnd / finishShowdown). -/

def awardPotAndEnd (s : TableState) : TableState × List OutMsg :=
  match s.game with
  | none => (s, [])
  | some g =>
      match (activeIds g s.players).head? with
      | none => (s, [])
      | some w =>
          ({ s with
              players := setP w (fun p => { p with chips := p.chips + g.pot }) s.players,
              game := none,
              dealerIndex := (s.dealerIndex + 1) % s.seats.length },
           [OutMsg.gameEnded [w]])

/-- Modelled from the spec: the server scores showdown hands with the
external pokersolver package (Hand.solve), which is not part of this
repository; its strength function is abstracted as the parameter solve
every table-machine definition below receives. -/
def showdownEvaluated (solve : List Card → Int) (g : Round)
    (players : List (PId × Player)) : List (PId × Int) :=
  (activeIds g players).filterMap (fun pid =>
    match lookupP pid players with
    | some p => some (pid, solve (p.cards ++ g.community))
    | none => none)

/-- Modelled from the spec: pokersolver Hand.winners, "the maximum score
among contestants defines the winner set (ties included)". -/
def winnersBy (evaluated : List (PId × Int)) : List PId :=
  match evaluated with
  | [] => []
  | e :: es =>
      ((e :: es).filter (fun x => x.2 = (es.map Prod.snd).foldl max e.2)).map Prod.fst

def finishShowdown (solve : List Card → Int) (s : TableState) :
    TableState × List OutMsg :=
  match s.game with
  | none => (s, [])
  | some g =>
      if (activeIds g s.players).isEmpty then (s, [])
      else
        let winners := winnersBy (showdownEvaluated solve g s.players)
        let share := Int.fdiv g.pot (winners.length : Int)
        ({ s with
            players := winners.foldl
              (fun ps w => setP w (fun p => { p with chips := p.chips + share }) ps)
              s.players,
            game := none,
            dealerIndex := (s.dealerIndex + 1) % s.seats.length },
         [OutMsg.gameEnded winners])

/-! Street transition (server.js startBettingRound). -/

def startBettingRound (solve : List Card → Int) (s : TableState) (stage : String)
    (now : Int) : TableState × List OutMsg :=
  match s.game with
  | none => (s, [])
  | some g0 =>
      let g1 := { g0 with
        stage := stage,
        currentBet := 0,
        minRaise := g0.bigBlind,
        actionCount := 0,
        turnIndex := (g0.dealerIndex + 1) % g0.seatOrder.length }
      let players := (activeIds g1 s.players).foldl
        (fun ps pid => setP pid (fun p => { p with bet := 0 }) ps) s.players
      let g2 :=
        if stage = stFlop then
          let d1 := g1.deck.dropLast
          let c1 := d1.getLastD dfltCard
          let d2 := d1.dropLast
          let c2 := d2.getLastD dfltCard
          let d3 := d2.dropLast
          let c3 := d3.getLastD dfltCard
          { g1 with deck := d3.dropLast, community := g1.community ++ [c1, c2, c3] }
        else if stage = stTurn ∨ stage = stRiver then
          let d1 := g1.deck.dropLast
          let c1 := d1.getLastD dfltCard
          { g1 with deck := d1.dropLast, community := g1.community ++ [c1] }
        else g1
      let s2 := { s with players := players, game := some g2 }
      if numActive g2 players ≤ 1 then awardPotAndEnd s2
      else startTurnTimer s2 now

/-! Turn advancement after an accepted action (server.js
advanceTurnAfterAction). -/

def advanceTurnAfterAction (solve : List Card → Int) (s : TableState) (kind : String)
    (now : Int) : TableState × List OutMsg :=
  match s.game with
  | none => (s, [])
  | some g0 =>
      let g1 := if kind ≠ aFold then { g0 with actionCount := g0.actionCount + 1 } else g0
      match nextActiveIndex g1 s.players g1.turnIndex with
      | none => awardPotAndEnd { s with game := some g1 }
      | some nextIdx =>
          let g2 := { g1 with turnIndex := nextIdx }
          let s2 := { s with game := some g2 }
          let aps := activePs g2 s.players
          if aps.length ≤ 1 then awardPotAndEnd s2
          else
            let roundComplete :=
              if g2.currentBet = 0 then decide (aps.length ≤ g2.actionCount)
              else everyoneMatchedCurrentBet g2 s.players
            if roundComplete then
              let s3 := { s with game := some { g2 with actionCount := 0 } }
              if g2.stage = stPreflop then startBettingRound solve s3 stFlop now
              else if g2.stage = stFlop then startBettingRound solve s3 stTurn now
              else if g2.stage = stTurn then startBettingRound solve s3 stRiver now
              else if g2.stage = stRiver then finishShowdown solve s3
              else (s3, [])
            else startTurnTimer s2 now

/-! The action processor (server.js processAction).  The raise branch is
factored into applyRaise so its immediate effect can be stated separately;
note the source computes totalBet before capping paid at the stack, so the
bet field is set to the uncapped total while only the capped amount moves. -/

def applyRaise (s : TableState) (g : Round) (playerId : PId) (p : Player)
    (amount : Int) : TableState × Int :=
  let toCall := max 0 (g.currentBet - p.bet)
  let totalBet := p.bet + toCall + amount
  let paid0 := toCall + amount
  let paid := if paid0 > p.chips then p.chips else paid0
  let amount1 := if paid0 > p.chips then paid - toCall else amount
  ({ s with
      players := setP playerId
        (fun q => { q with chips := q.chips - paid, bet := totalBet }) s.players,
      game := some { g with pot := g.pot + paid, currentBet := totalBet, minRaise := amount1 } },
   paid)

def processAction (solve : List Card → Int) (s : TableState) (playerId : PId)
    (action : String) (amount : Int) (now : Int) : TableState × List OutMsg :=
  match s.game with
  | none => (s, [OutMsg.errorTo playerId msgNoGame])
  | some g =>
      match g.seatOrder.get? (g.turnIndex % g.seatOrder.length) with
      | none => (s, [OutMsg.errorTo playerId msgNotYourTurn])
      | some so =>
          if so.1 ≠ playerId then (s, [OutMsg.errorTo playerId msgNotYourTurn])
          else
            let g1 := { g with turnEnd := none }
            let s1 := { s with game := some g1 }
            match lookupP playerId s.players with
            | none => (s1, [])
            | some p =>
                let toCall := max 0 (g1.currentBet - p.bet)
                if action = aFold then
                  let players := setP playerId (fun q => { q with folded := true }) s.players
                  let s2 := { s1 with players := players }
                  if numActive g1 players ≤ 1 then awardPotAndEnd s2
                  else advanceTurnAfterAction solve s2 aFold now
                else if action = aCall ∨ action = aCheck then
                  if toCall = 0 then advanceTurnAfterAction solve s1 action now
                  else
                    let paid := min toCall p.chips
                    let s2 := { s1 with
                      players := setP playerId
                        (fun q => { q with chips := q.chips - paid, bet := q.bet + paid })
                        s.players,
                      game := some { g1 with pot := g1.pot + paid } }
                    let r := advanceTurnAfterAction solve s2 action now
                    (r.1, OutMsg.collect playerId paid :: r.2)
                else if action = aRaise then
                  if amount < g1.minRaise then
                    let r := startTurnTimer s1 now
                    (r.1, OutMsg.errorTo playerId (msgRaiseAtLeast g1.minRaise) :: r.2)
                  else
                    let ar := applyRaise s1 g1 playerId p amount
                    let r := advanceTurnAfterAction solve ar.1 aRaise now
                    (r.1, OutMsg.collect playerId ar.2 :: r.2)
                else
                  let r := startTurnTimer s1 now
                  (r.1, OutMsg.errorTo playerId msgUnknownAction :: r.2)

/-! Timer expiry (the callback armed by startTurnTimer): force-fold the
current seat and advance, exactly like an explicit fold. -/

def onTimeout (solve : List Card → Int) (s : TableState) (now : Int) :
    TableState × List OutMsg :=
  match s.game with
  | none => (s, [])
  | some g =>
      match g.seatOrder.get? (g.turnIndex % g.seatOrder.length) with
      | none => (s, [])
      | some so =>
          match lookupP so.1 s.players with
          | none => (s, [])
          | some p =>
              if p.folded then (s, [])
              else
                let players := setP so.1 (fun q => { q with folded := true }) s.players
                let s2 := { s with players := players }
                if numActive g players ≤ 1 then awardPotAndEnd s2
                else advanceTurnAfterAction solve s2 aFold now

/-! Hand setup (server.js startGame).  The shuffled deck arrives as an
argument (shuffle is a uniform random permutation); the uuid round id is
not tracked. -/

/-- seats.map((pId, idx) => ...) with the index made explicit. -/
def withIdx (i : Nat) : List (Option PId) → List (PId × Nat)
  | [] => []
  | none :: rest => withIdx (i + 1) rest
  | some pid :: rest => (pid, i) :: withIdx (i + 1) rest

/-- Build seatOrder: occupied seats sorted by (idx - dealerIndex + 6) % 6,
JS remainder semantics (sign of the dividend, hence Int.tmod). -/
def computeSeatOrder (seats : List (Option PId)) (dealerIndex : Nat) :
    List (PId × Nat) :=
  sortBy (fun a b =>
      decide (Int.tmod ((a.2 : Int) - (dealerIndex : Int) + 6) 6
        ≤ Int.tmod ((b.2 : Int) - (dealerIndex : Int) + 6) 6))
    (withIdx 0 seats)

/-- One dealing pass over seatOrder: each active player receives the top of
the draw pile (the JS array is popped from its end). -/
def dealPass (seatOrder : List (PId × Nat))
    (st : List (PId × Player) × List Card) : List (PId × Player) × List Card :=
  seatOrder.foldl (fun acc so =>
    match lookupP so.1 acc.1 with
    | some p =>
        if p.active then
          (setP so.1 (fun q => { q with cards := q.cards ++ [acc.2.getLastD dfltCard] }) acc.1,
           acc.2.dropLast)
        else acc
    | none => acc) st

/-- The body of startGame after the stale completed-game clear: gate on an
existing game and on two seated players, then build the Round. -/
def startGameCore (s : TableState) (shuffledDeck : List Card) (now : Int) :
    TableState × List OutMsg :=
  match s.game with
  | some _ => (s, [])
  | none =>
      if (s.seats.filterMap id).length < 2 then (s, [])
      else
        let seatOrder := computeSeatOrder s.seats s.dealerIndex
        let players0 := s.players.map (fun kp =>
          (kp.1, { kp.2 with
            cards := ([] : List Card),
            folded := kp.2.seat = none,
            active := kp.2.seat ≠ none,
            bet := (0 : Int) }))
        let dealt := dealPass seatOrder (dealPass seatOrder (players0, shuffledDeck))
        match seatOrder.get? 0, seatOrder.get? 1 with
        | some so0, some so1 =>
            let players2 := setP so0.1
              (fun p => { p with chips := max 0 (p.chips - 10), bet := (10 : Int) }) dealt.1
            let players3 := setP so1.1
              (fun p => { p with chips := max 0 (p.chips - 20), bet := (20 : Int) }) players2
            let g : Round := {
              deck := dealt.2,
              community := [],
              pot := 0 + 10 + 20,
              smallBlind := 10,
              bigBlind := 20,
              dealerIndex := s.dealerIndex,
              seatOrder := seatOrder,
              stage := stPreflop,
              currentBet := 20,
              minRaise := 20,
              actionCount := 0,
              turnIndex := 2 % seatOrder.length,
              toCall := 0,
              turnEnd := none,
              showdownComplete := false,
              turnPlayerId := none }
            let r := startTurnTimer { s with players := players3, game := some g } now
            (r.1, OutMsg.gameStarted :: r.2)
        | _, _ => (s, [])

def startGame (s : TableState) (shuffledDeck : List Card) (now : Int) :
    TableState × List OutMsg :=
  startGameCore
    (match s.game with
     | some g => if g.showdownComplete then { s with game := none } else s
     | none => s)
    shuffledDeck now

/-! Seating handlers (the take-seat and leave-seat branches of the
websocket message handler) and connection bookkeeping. -/

def takeSeat (s : TableState) (pid : PId) (seat : Int) : TableState × List OutMsg :=
  match lookupP pid s.players with
  | none => (s, [])
  | some player =>
      if player.seat ≠ none then (s, [OutMsg.errorTo pid msgAlreadyTook])
      else if s.game.isSome then (s, [OutMsg.errorTo pid msgGameInProgress])
      else if seat < 0 ∨ 5 < seat ∨ s.seats.getD seat.toNat none ≠ none then (s, [])
      else
        ({ s with
            seats := s.seats.set seat.toNat (some pid),
            players := setP pid
              (fun p => { p with seat := some seat.toNat, active := true, folded := false })
              s.players },
         [])

def leaveSeat (s : TableState) (pid : PId) : TableState × List OutMsg :=
  match lookupP pid s.players with
  | none => (s, [])
  | some player =>
      if s.game.isSome then (s, [OutMsg.errorTo pid msgGameInProgress])
      else
        match player.seat with
        | none => (s, [])
        | some st =>
            ({ s with
                seats := s.seats.set st none,
                players := setP pid
                  (fun p => { p with seat := none, active := false, folded := true })
                  s.players },
             [])

/-- A fresh websocket connection registering a new player (1000 chips,
unseated).  Reconnection of a known id only swaps the socket and is a
state no-op here. -/
def connectP (s : TableState) (pid : PId) : TableState :=
  match lookupP pid s.players with
  | some _ => s
  | none =>
      { s with players := s.players ++
          [(pid, { chips := 1000, cards := [], seat := none,
                   folded := true, active := false, bet := 0 })] }

/-- The in-hand part of the disconnect handler (ws.on close): the departing
player is folded and deactivated; the handler then compares the Round's
turnPlayerId (an undefined property, see C10) with the connection id,
possibly cancelling the timer and advancing, then settles if at most one
contestant remains.  If the dead branch ran and settled the hand the source
would fault calling numActive on a null game; that path is modelled as
skipping the settlement check and is proved unreachable. -/
def onCloseGame (solve : List Card → Int) (s : TableState) (pid : PId) (now : Int) :
    TableState × List OutMsg :=
  match s.game with
  | none => (s, [])
  | some g =>
      let sA := { s with
        players := setP pid (fun q => { q with folded := true, active := false })
          s.players }
      let rB :=
        if g.turnPlayerId = some pid then
          advanceTurnAfterAction solve (clearTurnTimer sA) aFold now
        else (sA, [])
      match rB.1.game with
      | some g2 =>
          if numActive g2 rB.1.players ≤ 1 then
            let rC := awardPotAndEnd rB.1
            (rC.1, rB.2 ++ rC.2)
          else rB
      | none => rB

def onClose (solve : List Card → Int) (s : TableState) (pid : PId) (now : Int) :
    TableState × List OutMsg :=
  match lookupP pid s.players with
  | none => (s, [])
  | some p0 =>
      let r1 := onCloseGame solve s pid now
      let s2 :=
        match p0.seat with
        | some st => { r1.1 with seats := r1.1.seats.set st none }
        | none => r1.1
      ({ s2 with players := removeP pid s2.players }, r1.2)

/-- The in-hand part of the disconnect handler with the dead turnPlayerId
branch removed: what the source actually does on every reachable state. -/
def onCloseGameNoCancel (s : TableState) (pid : PId) : TableState × List OutMsg :=
  match s.game with
  | none => (s, [])
  | some g =>
      let sA := { s with
        players := setP pid (fun q => { q with folded := true, active := false })
          s.players }
      if numActive g sA.players ≤ 1 then awardPotAndEnd sA
      else (sA, [])

/-- The same disconnect handler with the dead turnPlayerId branch removed. -/
def onCloseNoCancel (s : TableState) (pid : PId) : TableState × List OutMsg :=
  match lookupP pid s.players with
  | none => (s, [])
  | some p0 =>
      let r1 := onCloseGameNoCancel s pid
      let s2 :=
        match p0.seat with
        | some st => { r1.1 with seats := r1.1.seats.set st none }
        | none => r1.1
      ({ s2 with players := removeP pid s2.players }, r1.2)

/-! In-hand events (the claim about chip conservation ranges over these)
and reachability over the full handler set. -/

inductive Ev
  | act (pid : PId) (action : String) (amount : Int) (now : Int)
  | timeout (now : Int)

def step (solve : List Card → Int) (s : TableState) : Ev → TableState × List OutMsg
  | Ev.act pid a amt now => processAction solve s pid a amt now
  | Ev.timeout now => onTimeout solve s now

def run (solve : List Card → Int) (s : TableState) : List Ev → TableState
  | [] => s
  | e :: es => run solve (step solve s e).1 es

def initialTable : TableState :=
  { seats := List.replicate 6 none, players := [], game := none, dealerIndex := 0 }

inductive Reachable (solve : List Card → Int) : TableState → Prop
  | init : Reachable solve initialTable
  | connect (s : TableState) (pid : PId) :
      Reachable solve s → Reachable solve (connectP s pid)
  | seatTake (s : TableState) (pid : PId) (seat : Int) :
      Reachable solve s → Reachable solve (takeSeat s pid seat).1
  | seatLeave (s : TableState) (pid : PId) :
      Reachable solve s → Reachable solve (leaveSeat s pid).1
  | start (s : TableState) (deck : List Card) (now : Int) :
      Reachable solve s → Reachable solve (startGame s deck now).1
  | action (s : TableState) (pid : PId) (a : String) (amt now : Int) :
      Reachable solve s → Reachable solve (processAction solve s pid a amt now).1
  | timedOut (s : TableState) (now : Int) :
      Reachable solve s → Reachable solve (onTimeout solve s now).1
  | closed (s : TableState) (pid : PId) (now : Int) :
      Reachable solve s → Reachable solve (onClose solve s pid now).1

/-! Money accounting for the conservation claim. -/

def sumChips (players : List (PId × Player)) : Int :=
  (players.map (fun kp => kp.2.chips)).sum

def potOf (s : TableState) : Int :=
  match s.game with
  | some g => g.pot
  | none => 0

def totalMoney (s : TableState) : Int := sumChips s.players + potOf s

/-! Concrete table used by several witnesses: players a (seat 0, small
blind posted) and b (seat 1, big blind posted), preflop, action on a. -/

def solveW : List Card → Int := fun _ => 0

def pA : Player :=
  { chips := 990, cards := [], seat := some 0, folded := false, active := true, bet := 10 }

def pB : Player :=
  { chips := 980, cards := [], seat := some 1, folded := false, active := true, bet := 20 }

def gW : Round :=
  { deck := [], community := [], pot := 30, smallBlind := 10, bigBlind := 20,
    dealerIndex := 0, seatOrder := [("a", 0), ("b", 1)], stage := stPreflop,
    currentBet := 20, minRaise := 20, actionCount := 0, turnIndex := 0, toCall := 0,
    turnEnd := none, showdownComplete := false, turnPlayerId := none }

def csW : TableState :=
  { seats := [some "a", some "b", none, none, none, none],
    players := [("a", pA), ("b", pB)], game := some gW, dealerIndex := 0 }

/-! ### C9: seating requests (corrected: occupied seats are refused silently) -/

def p9a : Player :=
  { chips := 1000, cards := [], seat := some 0, folded := false, active := true, bet := 0 }

def p9b : Player :=
  { chips := 1000, cards := [], seat := none, folded := true, active := false, bet := 0 }

def cs9 : TableState :=
  { seats := [some "a", none, none, none, none, none],
    players := [("a", p9a), ("b", p9b)],
    game := none, dealerIndex := 0 }

/-! ### C3: raise commitment (corrected: the bet field gets the uncapped
total because the source computes totalBet before capping paid) -/

def p3a : Player :=
  { chips := 30, cards := [], seat := some 0, folded := false, active := true, bet := 0 }

def p3b : Player :=
  { chips := 100, cards := [], seat := some 1, folded := false, active := true, bet := 20 }

def g3r : Round :=
  { deck := [], community := [], pot := 30, smallBlind := 10, bigBlind := 20,
    dealerIndex := 0, seatOrder := [("a", 0), ("b", 1)], stage := stPreflop,
    currentBet := 20, minRaise := 20, actionCount := 1, turnIndex := 0, toCall := 0,
    turnEnd := none, showdownComplete := false, turnPlayerId := none }

def cs3 : TableState :=
  { seats := [some "a", some "b", none, none, none, none],
    players := [("a", p3a), ("b", p3b)],
    game := some g3r, dealerIndex := 0 }

/-! ### C4: street-transition turn reset (code bug) -/

def g4r : Round :=
  { deck := [], community := [], pot := 30, smallBlind := 10, bigBlind := 20,
    dealerIndex := 4, seatOrder := [("a", 0), ("b", 1)], stage := stPreflop,
    currentBet := 20, minRaise := 20, actionCount := 0, turnIndex := 0, toCall := 0,
    turnEnd := none, showdownComplete := false, turnPlayerId := none }

def cs4 : TableState :=
  { seats := [some "a", some "b", none, none, none, none],
    players :=
      [("a", { chips := 990, cards := [], seat := some 0,
               folded := false, active := true, bet := 10 }),
       ("b", { chips := 980, cards := [], seat := some 1,
               folded := false, active := true, bet := 20 })],
    game := some g4r, dealerIndex := 4 }

/-- Witness for C7: two tied winners (constant hand strength) and a pot of
101: the winner list has length 2, the state after showdown credits each 50,
and one chip is destroyed. -/
def g7r : Round :=
  { deck := [], community := [], pot := 101, smallBlind := 10, bigBlind := 20,
    dealerIndex := 0, seatOrder := [("a", 0), ("b", 1)], stage := stRiver,
    currentBet := 0, minRaise := 20, actionCount := 0, turnIndex := 0, toCall := 0,
    turnEnd := none, showdownComplete := false, turnPlayerId := none }

def cs7 : TableState :=
  { seats := [some "a", some "b", none, none, none, none],
    players :=
      [("a", { chips := 0, cards := [], seat := some 0,
               folded := false, active := true, bet := 0 }),
       ("b", { chips := 0, cards := [], seat := some 1,
               folded := false, active := true, bet := 0 })],
    game := some g7r, dealerIndex := 0 }

/-! ### C10: the Round never carries a turnPlayerId, so the disconnect
handler's timer-cancel branch is dead code -/

def NoTPid (s : TableState) : Prop :=
  ∀ g, s.game = some g → g.turnPlayerId = none

/-- Witness state for C10: two players connect, take seats 0 and 1, and a
hand is started (an empty deck oracle is enough to build the Round). -/
def sW10 : TableState :=
  (startGame (takeSeat (takeSeat (connectP (connectP initialTable "a") "b") "a" 0).1
    "b" 1).1 [] 0).1

def csC1bad : TableState :=
  { seats := [some "a", some "b", none, none, none, none],
    players :=
      [("a", { chips := 5, cards := [], seat := some 0,
               folded := false, active := true, bet := 0 }),
       ("b", { chips := 1000, cards := [], seat := some 1,
               folded := false, active := true, bet := 0 })],
    game := none, dealerIndex := 0 }

def pOk0 : Player :=
  { chips := 1000, cards := [], seat := some 0, folded := false, active := true, bet := 0 }

def pOk1 : Player :=
  { chips := 1000, cards := [], seat := some 1, folded := false, active := true, bet := 0 }

def csC1ok : TableState :=
  { seats := [some "a", some "b", none, none, none, none],
    players := [("a", pOk0), ("b", pOk1)],
    game := none, dealerIndex := 0 }

theorem mem_insertLe {α : Type} (le : α → α → Bool) (x : α) (l : List α) (z : α) :
    z ∈ insertLe le x l ↔ z = x ∨ z ∈ l := by
  induction l with
  | nil => simp [insertLe]
  | cons y ys ih =>
      simp only [insertLe]
      split
      · simp [List.mem_cons]
      · simp only [List.mem_cons, ih]
        tauto

theorem mem_sortBy {α : Type} (le : α → α → Bool) (l : List α) (z : α) :
    z ∈ sortBy le l ↔ z ∈ l := by
  induction l with
  | nil => simp [sortBy]
  | cons x xs ih => simp [sortBy, mem_insertLe, ih]

theorem length_getCombinations {α : Type} (k : Nat) (l : List α) :
    (getCombinations k l).length = Nat.choose l.length k := by
  induction l generalizing k with
  | nil => cases k <;> simp [getCombinations]
  | cons x xs ih =>
      cases k with
      | zero => simp [getCombinations]
      | succ k =>
          simp [getCombinations, ih, Nat.choose_succ_succ, Nat.add_comm]

/-! ### Evaluator lemmas -/

theorem rankValue_nonneg (r : Fin 13) : 0 ≤ rankValue r := by
  unfold rankValue; positivity

theorem rankValue_le (r : Fin 13) : rankValue r ≤ 12 := by
  have h := r.isLt
  unfold rankValue
  omega

theorem foldl_inv {α β : Type} (P : β → Prop) (f : β → α → β) (l : List α) (init : β)
    (h0 : P init) (hstep : ∀ b a, a ∈ l → P b → P (f b a)) : P (l.foldl f init) := by
  induction l generalizing init with
  | nil => exact h0
  | cons x xs ih =>
      refine ih (f init x) (hstep init x (by simp) h0) ?_
      intro b a ha hb
      exact hstep b a (List.mem_cons_of_mem _ ha) hb

theorem getD_bounds (values : List Int) (h : ∀ v ∈ values, 0 ≤ v ∧ v ≤ 12) (i : Nat) :
    0 ≤ values.getD i 0 ∧ values.getD i 0 ≤ 12 := by
  rcases Nat.lt_or_ge i values.length with hlt | hge
  · have hmem : values.getD i 0 ∈ values := by
      rw [List.getD_eq_getElem values 0 hlt]
      exact List.getElem_mem hlt
    exact h _ hmem
  · rw [List.getD_eq_default values 0 hge]
    omega

theorem straightScan_some_bounds (values : List Int)
    (h : ∀ v ∈ values, 0 ≤ v ∧ v ≤ 12) :
    ∀ w, (straightScan values).2 = some w → 0 ≤ w ∧ w ≤ 12 := by
  intro w hw
  unfold straightScan at hw
  split at hw
  · split at hw
    · simp only [Prod.snd] at hw
      cases hw
      omega
    · revert hw
      refine foldl_inv (fun acc : Bool × Option Int => acc.2 = some w → 0 ≤ w ∧ w ≤ 12)
        _ _ _ (by simp) ?_
      intro b a _ hb
      dsimp only
      split
      · intro hsome
        simp only [Option.some.injEq] at hsome
        subst hsome
        exact getD_bounds values h _
      · exact hb
  · simp at hw

theorem hs_getD_bounds (hs : Option Int)
    (hhs : ∀ w, hs = some w → 0 ≤ w ∧ w ≤ 12) : 0 ≤ hs.getD 0 ∧ hs.getD 0 ≤ 12 := by
  cases hs with
  | none => simp
  | some w => simpa using hhs w rfl

theorem classify5_bounds (st fl : Bool) (hs : Option Int) (c0 : Fin 13 × Nat)
    (c1p : Bool) (lastRank : Fin 13)
    (hhs : ∀ w, hs = some w → 0 ≤ w ∧ w ≤ 12) :
    ((category (classify5 st fl hs c0 c1p lastRank).handName : Int) * 1000000
        ≤ (classify5 st fl hs c0 c1p lastRank).score) ∧
    (category (classify5 st fl hs c0 c1p lastRank).handName ≤ 7 →
      (classify5 st fl hs c0 c1p lastRank).score
        < ((category (classify5 st fl hs c0 c1p lastRank).handName : Int) + 1) * 1000000) := by
  have hg := hs_getD_bounds hs hhs
  have h1 := rankValue_nonneg c0.1
  have h2 := rankValue_le c0.1
  have h3 := rankValue_nonneg lastRank
  have h4 := rankValue_le lastRank
  unfold classify5
  split
  · split <;> simp [category] <;> omega
  · split
    · simp [category]; omega
    · split
      · simp [category]; omega
      · split
        · simp [category]; omega
        · split
          · simp [category]; omega
          · split
            · simp [category]; omega
            · split
              · simp [category]; omega
              · split
                · simp [category]; omega
                · simp [category]; omega

theorem evaluate5_bounds (hand : List Card) :
    ((category (evaluate5 hand).handName : Int) * 1000000 ≤ (evaluate5 hand).score) ∧
    (category (evaluate5 hand).handName ≤ 7 →
      (evaluate5 hand).score
        < ((category (evaluate5 hand).handName : Int) + 1) * 1000000) := by
  unfold evaluate5
  apply classify5_bounds
  apply straightScan_some_bounds
  intro v hv
  rw [mem_sortBy] at hv
  rcases List.mem_map.mp hv with ⟨r, _, hr⟩
  subst hr
  exact ⟨rankValue_nonneg r, rankValue_le r⟩

theorem evaluate5_score_nonneg (hand : List Card) : 0 ≤ (evaluate5 hand).score := by
  have h := (evaluate5_bounds hand).1
  have : (0 : Int) ≤ (category (evaluate5 hand).handName : Int) * 1000000 := by positivity
  omega

theorem category_le (n : String) : category n ≤ 8 := by
  unfold category
  repeat' split
  all_goals omega

theorem bestLoop_mono (cs : List (List Card)) (b : Best) :
    b.score ≤ (bestLoop cs b).score := by
  induction cs generalizing b with
  | nil => simp [bestLoop]
  | cons c cs ih =>
      simp only [bestLoop]
      split
      · rename_i hgt
        refine le_trans ?_ (ih ⟨(evaluate5 c).score, (evaluate5 c).handName, c⟩)
        show b.score ≤ (evaluate5 c).score
        omega
      · exact ih _

theorem bestLoop_ub (cs : List (List Card)) (b : Best) :
    ∀ c ∈ cs, (evaluate5 c).score ≤ (bestLoop cs b).score := by
  induction cs generalizing b with
  | nil => simp
  | cons c0 cs ih =>
      intro c hc
      rcases List.mem_cons.mp hc with rfl | hc
      · simp only [bestLoop]
        split
        · exact bestLoop_mono _ _
        · rename_i hgt
          have hle : (evaluate5 c).score ≤ b.score := by omega
          exact le_trans hle (bestLoop_mono _ _)
      · simp only [bestLoop]
        exact ih _ c hc

theorem bestLoop_origin (cs : List (List Card)) (b : Best) :
    bestLoop cs b = b ∨
      ∃ c ∈ cs, bestLoop cs b = ⟨(evaluate5 c).score, (evaluate5 c).handName, c⟩ := by
  induction cs generalizing b with
  | nil => left; rfl
  | cons c0 cs ih =>
      simp only [bestLoop]
      split
      · rcases ih ⟨(evaluate5 c0).score, (evaluate5 c0).handName, c0⟩ with h | ⟨c, hc, h⟩
        · right; exact ⟨c0, by simp, h⟩
        · right; exact ⟨c, by simp [hc], h⟩
      · rcases ih b with h | ⟨c, hc, h⟩
        · left; exact h
        · right; exact ⟨c, by simp [hc], h⟩

/-- C5: for a list of 7 distinct cards, evaluate7 enumerates exactly the 21
five-card subsets, and returns the maximal evaluate5 score over them together
with the matching category name and a witnessing subset attaining it. -/
theorem claim5_evaluate7_best_of_21 (cards : List Card)
    (h7 : cards.length = 7) (hnd : cards.Nodup) :
    (getCombinations 5 cards).length = 21 ∧
    (evaluate7 cards).hand ∈ getCombinations 5 cards ∧
    evaluate5 (evaluate7 cards).hand = ⟨(evaluate7 cards).score, (evaluate7 cards).handName⟩ ∧
    ∀ c ∈ getCombinations 5 cards, (evaluate5 c).score ≤ (evaluate7 cards).score := by
  have hlen : (getCombinations 5 cards).length = 21 := by
    rw [length_getCombinations, h7]
    decide
  have hub : ∀ c ∈ getCombinations 5 cards, (evaluate5 c).score ≤ (evaluate7 cards).score :=
    fun c hc => bestLoop_ub _ _ c hc
  have hne : getCombinations 5 cards ≠ [] := by
    intro h
    rw [h] at hlen
    simp at hlen
  rcases bestLoop_origin (getCombinations 5 cards) ⟨-1, "", []⟩ with h | ⟨c, hc, h⟩
  · exfalso
    rcases List.exists_mem_of_ne_nil _ hne with ⟨c, hc⟩
    have hle := hub c hc
    have hnn := evaluate5_score_nonneg c
    have he7 : evaluate7 cards = bestLoop (getCombinations 5 cards) ⟨-1, "", []⟩ := rfl
    rw [he7, h] at hle
    have hle2 : (evaluate5 c).score ≤ -1 := hle
    omega
  · have hb : evaluate7 cards = ⟨(evaluate5 c).score, (evaluate5 c).handName, c⟩ := h
    refine ⟨hlen, ?_, ?_, hub⟩
    · rw [hb]; exact hc
    · rw [hb]

/-- Witness for C5 at a concrete 7-card input (a royal flush plus two clubs). -/
theorem claim5_witness :
    let cards : List Card := [⟨12, 1⟩, ⟨11, 1⟩, ⟨10, 1⟩, ⟨9, 1⟩, ⟨8, 1⟩, ⟨0, 3⟩, ⟨1, 3⟩]
    (getCombinations 5 cards).length = 21 ∧
    (evaluate7 cards).hand ∈ getCombinations 5 cards ∧
    evaluate5 (evaluate7 cards).hand = ⟨(evaluate7 cards).score, (evaluate7 cards).handName⟩ ∧
    ∀ c ∈ getCombinations 5 cards, (evaluate5 c).score ≤ (evaluate7 cards).score :=
  claim5_evaluate7_best_of_21 _ (by decide) (by decide)

/-- C6: whenever evaluate5 puts two hands in different categories, the hand
in the strictly higher category (by the royal/straight flush down to high
card order encoded in the category function) scores strictly higher. -/
theorem claim6_category_ordering (h1 h2 : List Card)
    (hl1 : h1.length = 5) (hl2 : h2.length = 5)
    (hcat : category (evaluate5 h2).handName < category (evaluate5 h1).handName) :
    (evaluate5 h2).score < (evaluate5 h1).score := by
  have b1 := (evaluate5_bounds h1).1
  have b2 := (evaluate5_bounds h2).2
  have hc1 : category (evaluate5 h1).handName ≤ 8 := category_le _
  have hc2 : category (evaluate5 h2).handName ≤ 7 := by omega
  have hb2 := b2 hc2
  have hstep : ((category (evaluate5 h2).handName : Int) + 1)
      ≤ (category (evaluate5 h1).handName : Int) := by
    exact_mod_cast hcat
  have hmul := mul_le_mul_of_nonneg_right hstep (by norm_num : (0 : Int) ≤ 1000000)
  omega

/-! ### Registry lemmas -/

theorem lookup_setP_same (pid : PId) (f : Player → Player) (l : List (PId × Player)) :
    lookupP pid (setP pid f l) = (lookupP pid l).map f := by
  induction l with
  | nil => rfl
  | cons kp rest ih =>
      obtain ⟨k, p⟩ := kp
      by_cases hk : k = pid
      · simp [setP, lookupP, hk]
      · simp [setP, lookupP, hk, ih]

theorem lookup_setP_ne (pid q : PId) (f : Player → Player) (l : List (PId × Player))
    (h : q ≠ pid) : lookupP q (setP pid f l) = lookupP q l := by
  induction l with
  | nil => rfl
  | cons kp rest ih =>
      obtain ⟨k, p⟩ := kp
      by_cases hk : k = pid
      · subst hk
        have hkq : ¬k = q := fun he => h he.symm
        simp [setP, lookupP, hkq]
      · by_cases hq : k = q
        · simp [setP, lookupP, hk, hq, h]
        · simp [setP, lookupP, hk, hq, ih]

theorem lookup_setP_isSome (pid q : PId) (f : Player → Player) (l : List (PId × Player)) :
    (lookupP q (setP pid f l)).isSome = (lookupP q l).isSome := by
  by_cases h : q = pid
  · subst h
    rw [lookup_setP_same]
    cases lookupP q l <;> simp
  · rw [lookup_setP_ne _ _ _ _ h]

/-- One in-place mutation changes the chip sum by exactly the delta of the
mutated entry (zero when the id is absent). -/
theorem sumChips_setP (pid : PId) (f : Player → Player) (l : List (PId × Player)) :
    sumChips (setP pid f l) =
      sumChips l +
        (match lookupP pid l with
         | some p => (f p).chips - p.chips
         | none => 0) := by
  induction l with
  | nil => simp [setP, lookupP, sumChips]
  | cons kp rest ih =>
      obtain ⟨k, p⟩ := kp
      by_cases hk : k = pid
      · simp only [setP, lookupP, if_pos hk, sumChips, List.map_cons, List.sum_cons]
        ring
      · simp only [setP, lookupP, if_neg hk, sumChips, List.map_cons, List.sum_cons] at *
        rw [ih]
        ring

theorem activeIds_mem (g : Round) (players : List (PId × Player)) (w : PId)
    (h : w ∈ activeIds g players) :
    ∃ p, lookupP w players = some p ∧ p.active = true ∧ p.folded = false := by
  unfold activeIds at h
  rcases List.mem_filterMap.mp h with ⟨so, _, hso⟩
  cases hl : lookupP so.1 players with
  | none => rw [hl] at hso; cases hso
  | some p =>
      rw [hl] at hso
      dsimp only at hso
      by_cases hap : (p.active && !p.folded) = true
      · rw [if_pos hap] at hso
        cases hso
        simp only [Bool.and_eq_true, Bool.not_eq_true'] at hap
        exact ⟨p, hl, hap.1, hap.2⟩
      · rw [if_neg hap] at hso
        cases hso

/-! ### C2: actions out of turn are rejected without mutation -/

/-- C2: with a Round in place, an action from any identity other than the
seat at turnIndex (mod seatOrder length) returns the table state completely
unchanged and sends exactly a NotYourTurn error to that player. -/
theorem claim2_not_your_turn (solve : List Card → Int) (s : TableState) (g : Round)
    (so : PId × Nat) (pid : PId) (action : String) (amount now : Int)
    (hg : s.game = some g)
    (hso : g.seatOrder.get? (g.turnIndex % g.seatOrder.length) = some so)
    (hne : so.1 ≠ pid) :
    processAction solve s pid action amount now = (s, [OutMsg.errorTo pid msgNotYourTurn]) := by
  unfold processAction
  rw [hg]
  simp only [hso]
  rw [if_pos hne]

/-- Witness for C2: player b acting while it is the turn of a. -/
theorem claim2_witness :
    processAction solveW csW "b" aCall 0 0 = (csW, [OutMsg.errorTo "b" msgNotYourTurn]) :=
  claim2_not_your_turn solveW csW gW ("a", 0) "b" aCall 0 0 rfl rfl (by decide)

/-! ### C8: raises below the minimum are rejected without consuming the turn -/

/-- C8: with a Round in place and the acting player at turn, a raise whose
increment is below minRaise changes nothing except re-arming the turn
deadline, and emits the InvalidRaiseAmount error to the actor followed by
the turn re-announcement for that same actor. -/
theorem claim8_raise_floor (solve : List Card → Int) (s : TableState) (g : Round)
    (so : PId × Nat) (p : Player) (pid : PId) (amount now : Int)
    (hg : s.game = some g)
    (hso : g.seatOrder.get? (g.turnIndex % g.seatOrder.length) = some so)
    (hpid : so.1 = pid)
    (hp : lookupP pid s.players = some p)
    (hlt : amount < g.minRaise) :
    processAction solve s pid aRaise amount now =
      ({ s with game := some { g with turnEnd := some (now + 20000) } },
       [OutMsg.errorTo pid (msgRaiseAtLeast g.minRaise),
        OutMsg.turnMsg pid (now + 20000)]) := by
  unfold processAction
  rw [hg]
  simp only [hso]
  rw [if_neg (by simp [hpid])]
  simp only [hp]
  rw [if_neg (by decide), if_neg (by decide), if_pos True.intro]
  rw [if_pos hlt]
  unfold startTurnTimer
  dsimp only
  rw [hso]
  dsimp only
  rw [hpid]

/-- Witness for C8: a raise of 5 against minRaise 20. -/
theorem claim8_witness :
    processAction solveW csW "a" aRaise 5 0 =
      ({ csW with game := some { gW with turnEnd := some 20000 } },
       [OutMsg.errorTo "a" (msgRaiseAtLeast 20), OutMsg.turnMsg "a" 20000]) :=
  claim8_raise_floor solveW csW gW ("a", 0) pA "a" 5 0 rfl rfl rfl rfl (by decide)

/-- C9 counterexample: unseated player b requests seat 0, which a holds and
no round is active; the request is dropped with no message at all, refuting
the claim that a SeatTaken error is reported to the requester. -/
theorem claim9_counterexample :
    (takeSeat cs9 "b" 0).1 = cs9 ∧ (takeSeat cs9 "b" 0).2 = [] := by
  exact ⟨rfl, rfl⟩

/-- C9 amended: a request for an occupied (or out-of-range) seat is refused
silently with no message; a request from an already-seated player fails with
the AlreadySeated error; an unseated player requesting during a round fails
with the GameInProgress error; every failure leaves seats and players
untouched; success writes the seat and marks the player active and
unfolded. -/
theorem claim9_seating_amended (s : TableState) (pid : PId) (player : Player) (seat : Int)
    (hp : lookupP pid s.players = some player) :
    (player.seat = none → s.game = none → ¬seat < 0 → ¬5 < seat →
      s.seats.getD seat.toNat none ≠ none → takeSeat s pid seat = (s, [])) ∧
    (player.seat ≠ none →
      takeSeat s pid seat = (s, [OutMsg.errorTo pid msgAlreadyTook])) ∧
    (player.seat = none → s.game.isSome →
      takeSeat s pid seat = (s, [OutMsg.errorTo pid msgGameInProgress])) ∧
    (player.seat = none → s.game = none → ¬seat < 0 → ¬5 < seat →
      s.seats.getD seat.toNat none = none →
      takeSeat s pid seat =
        ({ s with
            seats := s.seats.set seat.toNat (some pid),
            players := setP pid
              (fun p => { p with seat := some seat.toNat, active := true, folded := false })
              s.players }, [])) := by
  refine ⟨?_, ?_, ?_, ?_⟩
  · intro hseat hgame hs1 hs2 hocc
    unfold takeSeat
    rw [hp]
    dsimp only
    rw [if_neg (by simp [hseat])]
    rw [if_neg (by simp [hgame])]
    rw [if_pos (Or.inr (Or.inr hocc))]
  · intro hseat
    unfold takeSeat
    rw [hp]
    dsimp only
    rw [if_pos hseat]
  · intro hseat hgame
    unfold takeSeat
    rw [hp]
    dsimp only
    rw [if_neg (by simp [hseat])]
    rw [if_pos hgame]
  · intro hseat hgame hs1 hs2 hfree
    unfold takeSeat
    rw [hp]
    dsimp only
    rw [if_neg (by simp [hseat])]
    rw [if_neg (by simp [hgame])]
    rw [if_neg (by push_neg; exact ⟨by omega, by omega, hfree⟩)]

/-- Witness for C9 amended: seated player a asking for another seat gets the
AlreadySeated error and nothing changes. -/
theorem claim9_witness :
    takeSeat cs9 "a" 1 = (cs9, [OutMsg.errorTo "a" msgAlreadyTook]) :=
  (claim9_seating_amended cs9 "a" p9a 1 rfl).2.1 (by decide)

/-- C3 counterexample: player a (stack 30, street bet 0) raises by the
minimum 20 against currentBet 20.  The capped amount moved is
min(20 + 20, 30) = 30, yet the bet field lands at 40, not 0 + 30: the
per-street bet does not increase by the capped amount. -/
theorem claim3_counterexample :
    (lookupP "a" (processAction solveW cs3 "a" aRaise 20 0).1.players).map Player.bet
        = some 40 ∧
    ¬((lookupP "a" (processAction solveW cs3 "a" aRaise 20 0).1.players).map Player.bet
        = some (0 + 30)) := by
  exact ⟨rfl, by decide⟩

/-- C3 amended: an accepted raise (increment at least minRaise) moves
paid = min(toCall + amount, stack) chips from the stack into the pot, sets
the per-street bet and currentBet to the uncapped total
bet + toCall + amount (which exceeds the actual contribution whenever the
cap bites), and sets minRaise to paid - toCall, the increment actually
applied after capping; processAction then hands the raised state to the
turn-advancement path with a collect notification for paid. -/
theorem claim3_raise_commit_amended (solve : List Card → Int) (s : TableState) (g : Round)
    (so : PId × Nat) (p : Player) (pid : PId) (amount now : Int)
    (hg : s.game = some g)
    (hso : g.seatOrder.get? (g.turnIndex % g.seatOrder.length) = some so)
    (hpid : so.1 = pid)
    (hp : lookupP pid s.players = some p)
    (hge : g.minRaise ≤ amount) :
    (applyRaise { s with game := some { g with turnEnd := none } }
        { g with turnEnd := none } pid p amount).2
      = min (max 0 (g.currentBet - p.bet) + amount) p.chips ∧
    lookupP pid (applyRaise { s with game := some { g with turnEnd := none } }
        { g with turnEnd := none } pid p amount).1.players
      = some { p with
          chips := p.chips - min (max 0 (g.currentBet - p.bet) + amount) p.chips,
          bet := p.bet + max 0 (g.currentBet - p.bet) + amount } ∧
    (applyRaise { s with game := some { g with turnEnd := none } }
        { g with turnEnd := none } pid p amount).1.game
      = some { g with
          turnEnd := none,
          pot := g.pot + min (max 0 (g.currentBet - p.bet) + amount) p.chips,
          currentBet := p.bet + max 0 (g.currentBet - p.bet) + amount,
          minRaise := min (max 0 (g.currentBet - p.bet) + amount) p.chips
            - max 0 (g.currentBet - p.bet) } ∧
    processAction solve s pid aRaise amount now =
      ((advanceTurnAfterAction solve
          (applyRaise { s with game := some { g with turnEnd := none } }
            { g with turnEnd := none } pid p amount).1 aRaise now).1,
       OutMsg.collect pid
          (applyRaise { s with game := some { g with turnEnd := none } }
            { g with turnEnd := none } pid p amount).2 ::
         (advanceTurnAfterAction solve
           (applyRaise { s with game := some { g with turnEnd := none } }
             { g with turnEnd := none } pid p amount).1 aRaise now).2) := by
  have hpaid : (if max 0 (g.currentBet - p.bet) + amount > p.chips then p.chips
        else max 0 (g.currentBet - p.bet) + amount)
      = min (max 0 (g.currentBet - p.bet) + amount) p.chips := by
    rw [min_def]
    split <;> split <;> omega
  refine ⟨?_, ?_, ?_, ?_⟩
  · unfold applyRaise
    dsimp only
    exact hpaid
  · unfold applyRaise
    dsimp only
    rw [lookup_setP_same, hp]
    rw [Option.map_some']
    rw [hpaid]
  · unfold applyRaise
    dsimp only
    rw [hpaid]
    simp only [Option.some.injEq, Round.mk.injEq, true_and, and_true]
    split <;> omega
  · unfold processAction
    rw [hg]
    simp only [hso]
    rw [if_neg (by simp [hpid])]
    simp only [hp]
    rw [if_neg (by decide), if_neg (by decide), if_pos True.intro]
    rw [if_neg (by omega)]

/-- Witness for C3 amended at the counterexample state: the amount paid is
min(toCall + amount, stack). -/
theorem claim3_witness :
    (applyRaise { cs3 with game := some { g3r with turnEnd := none } }
        { g3r with turnEnd := none } "a" p3a 20).2
      = min (max 0 (g3r.currentBet - p3a.bet) + 20) p3a.chips :=
  (claim3_raise_commit_amended solveW cs3 g3r ("a", 0) p3a "a" 20 0
    rfl rfl rfl rfl (by decide)).1

/-- C4: evaluation at the failing input.  Dealer button on (empty) seat 4,
players a (seat 0) and b (seat 1); seatOrder is then [a, b] and the seat
immediately after the button is a, its first element.  On the flop
transition the source computes turnIndex = (4 + 1) % 2 = 1, handing the
turn to b, not to a, although the code comment says the small blind (the
player at seatOrder index 0) starts post-flop; the reset of currentBet,
minRaise, actionCount and the street bets does happen. -/
theorem claim4_code_bug :
    (startBettingRound solveW cs4 stFlop 0).1.game.map Round.turnIndex = some 1 ∧
    (startBettingRound solveW cs4 stFlop 0).1.game.map Round.turnIndex ≠ some 0 ∧
    (startBettingRound solveW cs4 stFlop 0).2 = [OutMsg.turnMsg "b" 20000] ∧
    (startBettingRound solveW cs4 stFlop 0).1.game.map Round.currentBet = some 0 ∧
    (startBettingRound solveW cs4 stFlop 0).1.game.map Round.minRaise = some 20 ∧
    (startBettingRound solveW cs4 stFlop 0).1.game.map Round.actionCount = some 0 ∧
    (lookupP "a" (startBettingRound solveW cs4 stFlop 0).1.players).map Player.bet
      = some 0 ∧
    (lookupP "b" (startBettingRound solveW cs4 stFlop 0).1.players).map Player.bet
      = some 0 := by
  refine ⟨rfl, by decide, rfl, rfl, rfl, rfl, rfl, rfl⟩

/-! ### C7: showdown split -/

theorem foldl_max_mem (es : List Int) (x : Int) :
    es.foldl max x = x ∨ es.foldl max x ∈ es := by
  induction es generalizing x with
  | nil => left; rfl
  | cons e es ih =>
      simp only [List.foldl_cons]
      rcases ih (max x e) with h | h
      · rcases max_choice x e with hm | hm
        · left; rw [h, hm]
        · right; rw [h, hm]; exact List.mem_cons_self e es
      · right; exact List.mem_cons_of_mem _ h

theorem foldl_max_le_init (es : List Int) (x : Int) : x ≤ es.foldl max x := by
  induction es generalizing x with
  | nil => simp
  | cons e es ih =>
      simp only [List.foldl_cons]
      exact le_trans (le_max_left x e) (ih _)

theorem foldl_max_ub (es : List Int) (x : Int) : ∀ y ∈ es, y ≤ es.foldl max x := by
  induction es generalizing x with
  | nil => simp
  | cons e es ih =>
      intro y hy
      simp only [List.foldl_cons]
      rcases List.mem_cons.mp hy with rfl | hy
      · exact le_trans (le_max_right x y) (foldl_max_le_init _ _)
      · exact ih _ y hy

theorem nodup_fst_inj {l : List (PId × Int)} (h : (l.map Prod.fst).Nodup)
    {x y : PId × Int} (hx : x ∈ l) (hy : y ∈ l) (hxy : x.1 = y.1) : x = y := by
  induction l with
  | nil => cases hx
  | cons a l ih =>
      simp only [List.map_cons, List.nodup_cons] at h
      rcases List.mem_cons.mp hx with rfl | hx2
      · rcases List.mem_cons.mp hy with rfl | hy2
        · rfl
        · exact absurd (by rw [hxy]; exact List.mem_map_of_mem Prod.fst hy2) h.1
      · rcases List.mem_cons.mp hy with rfl | hy2
        · exact absurd (by rw [← hxy]; exact List.mem_map_of_mem Prod.fst hx2) h.1
        · exact ih h.2 hx2 hy2

theorem filterMap_pair_fst (l : List PId) (f : PId → Option (PId × Int))
    (h : ∀ a ∈ l, ∃ b, f a = some (a, b)) : (l.filterMap f).map Prod.fst = l := by
  induction l with
  | nil => rfl
  | cons a l ih =>
      rcases h a (by simp) with ⟨b, hb⟩
      rw [List.filterMap_cons, hb]
      simp only [List.map_cons]
      rw [ih (fun a2 ha2 => h a2 (List.mem_cons_of_mem _ ha2))]

theorem lookup_foldl_setP_not_mem (f : Player → Player) (ws : List PId)
    (ps : List (PId × Player)) (q : PId) (hq : q ∉ ws) :
    lookupP q (ws.foldl (fun a w => setP w f a) ps) = lookupP q ps := by
  induction ws generalizing ps with
  | nil => rfl
  | cons w ws ih =>
      simp only [List.foldl_cons]
      have hqw : q ≠ w := by
        intro h
        exact hq (h ▸ List.mem_cons_self w ws)
      rw [ih _ (fun h => hq (List.mem_cons_of_mem _ h)), lookup_setP_ne _ _ _ _ hqw]

theorem lookup_foldl_setP_mem (f : Player → Player) (ws : List PId)
    (ps : List (PId × Player)) (w : PId) (hw : w ∈ ws) (hnd : ws.Nodup) :
    lookupP w (ws.foldl (fun a w2 => setP w2 f a) ps) = (lookupP w ps).map f := by
  induction ws generalizing ps with
  | nil => cases hw
  | cons w0 ws ih =>
      simp only [List.foldl_cons]
      simp only [List.nodup_cons] at hnd
      rcases List.mem_cons.mp hw with rfl | hw2
      · rw [lookup_foldl_setP_not_mem f ws _ w hnd.1, lookup_setP_same]
      · have hset : w ≠ w0 := by
          intro h
          exact hnd.1 (h ▸ hw2)
        rw [ih _ hw2 hnd.2, lookup_setP_ne _ _ _ _ hset]

theorem sumChips_foldl_add (share : Int) (ws : List PId) (ps : List (PId × Player))
    (h : ∀ w ∈ ws, (lookupP w ps).isSome) :
    sumChips (ws.foldl
        (fun a w => setP w (fun p => { p with chips := p.chips + share }) a) ps)
      = sumChips ps + share * ws.length := by
  induction ws generalizing ps with
  | nil => simp
  | cons w ws ih =>
      simp only [List.foldl_cons]
      obtain ⟨p, hp⟩ := Option.isSome_iff_exists.mp (h w (by simp))
      rw [ih _ ?_]
      · rw [sumChips_setP, hp]
        dsimp only
        simp only [List.length_cons]
        push_cast
        ring
      · intro w2 hw2
        rw [lookup_setP_isSome]
        exact h w2 (List.mem_cons_of_mem _ hw2)

/-- C7: at showdown the winner set is the contestants of maximal hand value
(ties included), each winner gains exactly floor(pot / winners), the
remainder pot mod winners is credited to nobody (total money drops by it,
the pot having been zeroed with the Round), and non-winners are untouched. -/
theorem claim7_showdown_split (solve : List Card → Int) (s : TableState) (g : Round)
    (hg : s.game = some g)
    (hne : activeIds g s.players ≠ [])
    (hnd : (activeIds g s.players).Nodup) :
    1 ≤ (winnersBy (showdownEvaluated solve g s.players)).length ∧
    (∀ w ∈ winnersBy (showdownEvaluated solve g s.players),
      (lookupP w (finishShowdown solve s).1.players).map Player.chips
        = (lookupP w s.players).map (fun p => p.chips +
            Int.fdiv g.pot ((winnersBy (showdownEvaluated solve g s.players)).length : Int))) ∧
    (∀ q, q ∉ winnersBy (showdownEvaluated solve g s.players) →
      lookupP q (finishShowdown solve s).1.players = lookupP q s.players) ∧
    (finishShowdown solve s).1.game = none ∧
    totalMoney (finishShowdown solve s).1
      = totalMoney s
        - g.pot % ((winnersBy (showdownEvaluated solve g s.players)).length : Int) ∧
    (∀ e ∈ showdownEvaluated solve g s.players,
      e.1 ∈ winnersBy (showdownEvaluated solve g s.players) ↔
        ∀ e2 ∈ showdownEvaluated solve g s.players, e2.2 ≤ e.2) := by
  have hfst : (showdownEvaluated solve g s.players).map Prod.fst = activeIds g s.players := by
    unfold showdownEvaluated
    refine filterMap_pair_fst _ _ ?_
    intro a ha
    rcases activeIds_mem g s.players a ha with ⟨p, hp, _, _⟩
    exact ⟨solve (p.cards ++ g.community), by rw [hp]⟩
  have hfs : finishShowdown solve s =
      ({ s with
          players := (winnersBy (showdownEvaluated solve g s.players)).foldl
            (fun ps w => setP w (fun p => { p with chips := p.chips + Int.fdiv g.pot ((winnersBy (showdownEvaluated solve g s.players)).length : Int) }) ps)
            s.players,
          game := none,
          dealerIndex := (s.dealerIndex + 1) % s.seats.length },
       [OutMsg.gameEnded (winnersBy (showdownEvaluated solve g s.players))]) := by
    unfold finishShowdown
    rw [hg]
    dsimp only
    rw [if_neg (by simp [List.isEmpty_iff, hne])]
  have hevne : showdownEvaluated solve g s.players ≠ [] := by
    intro h0
    rw [h0] at hfst
    exact hne (by simpa using hfst.symm)
  obtain ⟨e, es, hevc⟩ := List.exists_cons_of_ne_nil hevne
  have hwdef : winnersBy (showdownEvaluated solve g s.players)
      = ((e :: es).filter (fun x => x.2 = (es.map Prod.snd).foldl max e.2)).map Prod.fst := by
    rw [hevc]
    rfl
  have hmax_att : ∃ x ∈ e :: es, x.2 = (es.map Prod.snd).foldl max e.2 := by
    rcases foldl_max_mem (es.map Prod.snd) e.2 with h | h
    · exact ⟨e, by simp, h.symm⟩
    · rcases List.mem_map.mp h with ⟨x, hx, hxe⟩
      exact ⟨x, List.mem_cons_of_mem _ hx, hxe⟩
  have hmax_ub : ∀ x ∈ e :: es, x.2 ≤ (es.map Prod.snd).foldl max e.2 := by
    intro x hx
    rcases List.mem_cons.mp hx with rfl | hx2
    · exact foldl_max_le_init _ _
    · exact foldl_max_ub _ _ _ (List.mem_map_of_mem Prod.snd hx2)
  have hw_ne : winnersBy (showdownEvaluated solve g s.players) ≠ [] := by
    rw [hwdef]
    rcases hmax_att with ⟨x, hx, hxv⟩
    intro hnil
    have hmem : x ∈ (e :: es).filter (fun y => y.2 = (es.map Prod.snd).foldl max e.2) :=
      List.mem_filter.mpr ⟨hx, by simp [hxv]⟩
    rw [List.map_eq_nil_iff] at hnil
    rw [hnil] at hmem
    cases hmem
  have hlen1 : 1 ≤ (winnersBy (showdownEvaluated solve g s.players)).length :=
    List.length_pos.mpr hw_ne
  have hwsub : List.Sublist (winnersBy (showdownEvaluated solve g s.players))
      (activeIds g s.players) := by
    rw [hwdef, ← hfst, hevc]
    exact (List.filter_sublist _).map Prod.fst
  have hwnd : (winnersBy (showdownEvaluated solve g s.players)).Nodup := hwsub.nodup hnd
  have hwins_some : ∀ w ∈ winnersBy (showdownEvaluated solve g s.players),
      (lookupP w s.players).isSome := by
    intro w hw
    rcases activeIds_mem g s.players w (hwsub.mem hw) with ⟨p, hp, _, _⟩
    rw [hp]
    rfl
  refine ⟨hlen1, ?_, ?_, ?_, ?_, ?_⟩
  · intro w hw
    rw [hfs]
    dsimp only
    rw [lookup_foldl_setP_mem _ _ _ _ hw hwnd]
    obtain ⟨p, hp⟩ := Option.isSome_iff_exists.mp (hwins_some w hw)
    rw [hp]
    rfl
  · intro q hq
    rw [hfs]
    dsimp only
    rw [lookup_foldl_setP_not_mem _ _ _ _ hq]
  · rw [hfs]
  · rw [hfs]
    unfold totalMoney potOf
    rw [hg]
    dsimp only
    rw [sumChips_foldl_add _ _ _ hwins_some]
    have hn0 : (0 : Int) < ((winnersBy (showdownEvaluated solve g s.players)).length : Int) := by
      exact_mod_cast hlen1
    rw [Int.fdiv_eq_ediv _ (le_of_lt hn0)]
    have heq := Int.ediv_add_emod g.pot
      ((winnersBy (showdownEvaluated solve g s.players)).length : Int)
    linarith
  · intro e2 he2
    rw [hevc] at he2
    constructor
    · intro hin
      rw [hwdef] at hin
      rcases List.mem_map.mp hin with ⟨x, hxf, hx1⟩
      have hxev := List.mem_of_mem_filter hxf
      have hxm : x.2 = (es.map Prod.snd).foldl max e.2 := by
        have := List.of_mem_filter hxf
        simpa using this
      have hnd_fst : ((e :: es).map Prod.fst).Nodup := by
        rw [← hevc, hfst]
        exact hnd
      have hxe2 : x = e2 := nodup_fst_inj hnd_fst hxev he2 hx1
      intro e3 he3
      rw [hevc] at he3
      rw [← hxe2, hxm]
      exact hmax_ub e3 he3
    · intro hall
      rcases hmax_att with ⟨x, hx, hxv⟩
      have hle1 : (es.map Prod.snd).foldl max e.2 ≤ e2.2 := by
        rw [← hxv]
        exact hall x (by rw [hevc]; exact hx)
      have hle2 : e2.2 ≤ (es.map Prod.snd).foldl max e.2 := hmax_ub e2 he2
      have he2m : e2.2 = (es.map Prod.snd).foldl max e.2 := le_antisymm hle2 hle1
      rw [hwdef]
      exact List.mem_map_of_mem Prod.fst (List.mem_filter.mpr ⟨he2, by simp [he2m]⟩)

theorem claim7_witness :
    1 ≤ (winnersBy (showdownEvaluated solveW g7r cs7.players)).length ∧
    (∀ w ∈ winnersBy (showdownEvaluated solveW g7r cs7.players),
      (lookupP w (finishShowdown solveW cs7).1.players).map Player.chips
        = (lookupP w cs7.players).map (fun p => p.chips +
            Int.fdiv g7r.pot ((winnersBy (showdownEvaluated solveW g7r cs7.players)).length : Int))) ∧
    (∀ q, q ∉ winnersBy (showdownEvaluated solveW g7r cs7.players) →
      lookupP q (finishShowdown solveW cs7).1.players = lookupP q cs7.players) ∧
    (finishShowdown solveW cs7).1.game = none ∧
    totalMoney (finishShowdown solveW cs7).1
      = totalMoney cs7
        - g7r.pot % ((winnersBy (showdownEvaluated solveW g7r cs7.players)).length : Int) ∧
    (∀ e ∈ showdownEvaluated solveW g7r cs7.players,
      e.1 ∈ winnersBy (showdownEvaluated solveW g7r cs7.players) ↔
        ∀ e2 ∈ showdownEvaluated solveW g7r cs7.players, e2.2 ≤ e.2) :=
  claim7_showdown_split solveW cs7 g7r rfl (by decide) (by decide)

theorem noTPid_clear (s : TableState) (h : NoTPid s) : NoTPid (clearTurnTimer s) := by
  unfold clearTurnTimer
  split
  · rename_i g0 hs
    intro g hg
    cases hg
    exact h g0 hs
  · exact h

theorem noTPid_timer (s : TableState) (now : Int) (h : NoTPid s) :
    NoTPid (startTurnTimer s now).1 := by
  unfold startTurnTimer
  split
  · exact h
  · rename_i g0 hs
    split
    · exact h
    · intro g hg
      cases hg
      exact h g0 hs

theorem noTPid_award (s : TableState) (h : NoTPid s) : NoTPid (awardPotAndEnd s).1 := by
  unfold awardPotAndEnd
  split
  · exact h
  · split
    · exact h
    · intro g hg
      cases hg

theorem noTPid_showdown (solve : List Card → Int) (s : TableState) (h : NoTPid s) :
    NoTPid (finishShowdown solve s).1 := by
  unfold finishShowdown
  split
  · exact h
  · split
    · exact h
    · intro g hg
      cases hg

theorem noTPid_sbr (solve : List Card → Int) (s : TableState) (stage : String) (now : Int)
    (h : NoTPid s) : NoTPid (startBettingRound solve s stage now).1 := by
  unfold startBettingRound
  split
  · exact h
  · rename_i g0 hs
    have hbase : ∀ (P : List (PId × Player)) (g2 : Round),
        g2.turnPlayerId = g0.turnPlayerId →
          NoTPid { s with players := P, game := some g2 } := by
      intro P g2 htp g hg
      cases hg
      rw [htp]
      exact h g0 hs
    dsimp only
    repeat' split
    all_goals first
      | exact noTPid_award _ (hbase _ _ rfl)
      | exact noTPid_timer _ _ (hbase _ _ rfl)

theorem noTPid_advance (solve : List Card → Int) (s : TableState) (kind : String)
    (now : Int) (h : NoTPid s) : NoTPid (advanceTurnAfterAction solve s kind now).1 := by
  unfold advanceTurnAfterAction
  split
  · exact h
  · rename_i g0 hs
    have hbase1 : ∀ g2 : Round, g2.turnPlayerId = g0.turnPlayerId →
        NoTPid { s with game := some g2 } := by
      intro g2 htp g hg
      cases hg
      rw [htp]
      exact h g0 hs
    dsimp only
    repeat' split
    all_goals first
      | exact noTPid_award _ (hbase1 _ rfl)
      | exact noTPid_timer _ _ (hbase1 _ rfl)
      | exact noTPid_sbr _ _ _ _ (hbase1 _ rfl)
      | exact noTPid_showdown _ _ (hbase1 _ rfl)
      | exact hbase1 _ rfl

theorem noTPid_process (solve : List Card → Int) (s : TableState) (pid : PId)
    (action : String) (amount now : Int) (h : NoTPid s) :
    NoTPid (processAction solve s pid action amount now).1 := by
  unfold processAction
  split
  · exact h
  · rename_i g0 hs
    split
    · exact h
    · split
      · exact h
      · have hbase : ∀ (P : List (PId × Player)) (g2 : Round),
            g2.turnPlayerId = g0.turnPlayerId →
              NoTPid { s with players := P, game := some g2 } := by
          intro P g2 htp g hg
          cases hg
          rw [htp]
          exact h g0 hs
        have hbase1 : ∀ g2 : Round, g2.turnPlayerId = g0.turnPlayerId →
            NoTPid { s with game := some g2 } := by
          intro g2 htp g hg
          cases hg
          rw [htp]
          exact h g0 hs
        dsimp only
        repeat' split
        all_goals first
          | exact h
          | exact hbase1 _ rfl
          | exact noTPid_award _ (hbase _ _ rfl)
          | exact noTPid_advance _ _ _ _ (hbase _ _ rfl)
          | exact noTPid_advance _ _ _ _ (hbase1 _ rfl)
          | exact noTPid_timer _ _ (hbase1 _ rfl)

theorem noTPid_onTimeout (solve : List Card → Int) (s : TableState) (now : Int)
    (h : NoTPid s) : NoTPid (onTimeout solve s now).1 := by
  unfold onTimeout
  dsimp only
  repeat' split
  all_goals first
    | exact h
    | exact noTPid_award _ (fun g hg => h g hg)
    | exact noTPid_advance _ _ _ _ (fun g hg => h g hg)

theorem noTPid_startGameCore (s : TableState) (deck : List Card) (now : Int)
    (h : NoTPid s) : NoTPid (startGameCore s deck now).1 := by
  unfold startGameCore
  split
  · exact h
  · split
    · exact h
    · dsimp only
      split
      · exact noTPid_timer _ _ (fun g hg => by cases hg; rfl)
      · exact h

theorem noTPid_startGame (s : TableState) (deck : List Card) (now : Int)
    (h : NoTPid s) : NoTPid (startGame s deck now).1 := by
  unfold startGame
  apply noTPid_startGameCore
  split
  · split
    · exact fun g hg => Option.noConfusion hg
    · exact h
  · exact h

theorem noTPid_takeSeat (s : TableState) (pid : PId) (seat : Int) (h : NoTPid s) :
    NoTPid (takeSeat s pid seat).1 := by
  unfold takeSeat
  split
  · exact h
  · split
    · exact h
    · split
      · exact h
      · split
        · exact h
        · intro g hg
          exact h g hg

theorem noTPid_leaveSeat (s : TableState) (pid : PId) (h : NoTPid s) :
    NoTPid (leaveSeat s pid).1 := by
  unfold leaveSeat
  split
  · exact h
  · split
    · exact h
    · split
      · exact h
      · intro g hg
        exact h g hg

theorem noTPid_connect (s : TableState) (pid : PId) (h : NoTPid s) :
    NoTPid (connectP s pid) := by
  unfold connectP
  split
  · exact h
  · intro g hg
    exact h g hg

theorem noTPid_onCloseGame (solve : List Card → Int) (s : TableState) (pid : PId)
    (now : Int) (h : NoTPid s) : NoTPid (onCloseGame solve s pid now).1 := by
  unfold onCloseGame
  split
  · exact h
  · rename_i g0 hs
    have hsA : NoTPid { s with
        players := setP pid (fun q => { q with folded := true, active := false })
          s.players } := by
      intro g hg
      exact h g hg
    have hrB : NoTPid (if g0.turnPlayerId = some pid then
        advanceTurnAfterAction solve
          (clearTurnTimer { s with
            players := setP pid (fun q => { q with folded := true, active := false })
              s.players }) aFold now
      else ({ s with
        players := setP pid (fun q => { q with folded := true, active := false })
          s.players }, ([] : List OutMsg))).1 := by
      split
      · exact noTPid_advance _ _ _ _ (noTPid_clear _ hsA)
      · exact hsA
    dsimp only
    generalize hgen : (if g0.turnPlayerId = some pid then
        advanceTurnAfterAction solve
          (clearTurnTimer { s with
            players := setP pid (fun q => { q with folded := true, active := false })
              s.players }) aFold now
      else ({ s with
        players := setP pid (fun q => { q with folded := true, active := false })
          s.players }, ([] : List OutMsg))) = rB
    rw [hgen] at hrB
    intro g hg
    split at hg
    · split at hg
      · exact noTPid_award _ hrB g hg
      · exact hrB g hg
    · exact hrB g hg

theorem noTPid_onClose (solve : List Card → Int) (s : TableState) (pid : PId) (now : Int)
    (h : NoTPid s) : NoTPid (onClose solve s pid now).1 := by
  unfold onClose
  split
  · exact h
  · rename_i p0 hp0
    intro g hg
    split at hg
    · exact noTPid_onCloseGame solve s pid now h g hg
    · exact noTPid_onCloseGame solve s pid now h g hg

theorem reachable_noTPid (solve : List Card → Int) (s : TableState)
    (h : Reachable solve s) : NoTPid s := by
  induction h with
  | init =>
      intro g hg
      cases hg
  | connect s pid _ ih => exact noTPid_connect s pid ih
  | seatTake s pid seat _ ih => exact noTPid_takeSeat s pid seat ih
  | seatLeave s pid _ ih => exact noTPid_leaveSeat s pid ih
  | start s deck now _ ih => exact noTPid_startGame s deck now ih
  | action s pid a amt now _ ih => exact noTPid_process solve s pid a amt now ih
  | timedOut s now _ ih => exact noTPid_onTimeout solve s now ih
  | closed s pid now _ ih => exact noTPid_onClose solve s pid now ih

/-- C10: in every reachable state the Round (when present) has no
turnPlayerId, so the disconnect handler never takes the timer-cancel /
turn-advance branch: disconnect behaves exactly like the handler with that
branch deleted (fold and deactivate the player, settle only if at most one
contestant remains, free the seat, drop the registry entry). -/
theorem onCloseGame_eq (solve : List Card → Int) (s : TableState) (pid : PId)
    (now : Int) (hinv : NoTPid s) :
    onCloseGame solve s pid now = onCloseGameNoCancel s pid := by
  cases hs : s.game with
  | none =>
      unfold onCloseGame onCloseGameNoCancel
      rw [hs]
  | some g0 =>
      have htp : g0.turnPlayerId = none := hinv g0 hs
      unfold onCloseGame onCloseGameNoCancel
      rw [hs]
      dsimp only
      rw [if_neg (by simp [htp])]
      rfl

theorem onClose_eq (solve : List Card → Int) (s : TableState) (pid : PId)
    (now : Int) (hinv : NoTPid s) :
    onClose solve s pid now = onCloseNoCancel s pid := by
  unfold onClose onCloseNoCancel
  rw [onCloseGame_eq solve s pid now hinv]

theorem claim10_no_turnPlayerId (solve : List Card → Int) (s : TableState)
    (h : Reachable solve s) :
    (∀ g, s.game = some g → g.turnPlayerId = none) ∧
    (∀ pid now, onClose solve s pid now = onCloseNoCancel s pid) := by
  have hinv : NoTPid s := reachable_noTPid solve s h
  exact ⟨hinv, fun pid now => onClose_eq solve s pid now hinv⟩

theorem claim10_witness :
    (∀ g, sW10.game = some g → g.turnPlayerId = none) ∧
    (∀ pid now, onClose solveW sW10 pid now = onCloseNoCancel sW10 pid) :=
  claim10_no_turnPlayerId solveW sW10
    (Reachable.start _ [] 0 (Reachable.seatTake _ "b" 1 (Reachable.seatTake _ "a" 0
      (Reachable.connect _ "b" (Reachable.connect _ "a" Reachable.init)))))

/-! ### C1: chip conservation (corrected) -/

theorem money_clear (s : TableState) : totalMoney (clearTurnTimer s) = totalMoney s := by
  unfold clearTurnTimer
  split
  · rename_i g hs
    unfold totalMoney potOf
    rw [hs]
  · rfl

theorem money_timer (s : TableState) (now : Int) :
    totalMoney (startTurnTimer s now).1 = totalMoney s := by
  unfold startTurnTimer
  split
  · rfl
  · rename_i g hs
    split
    · rfl
    · unfold totalMoney potOf
      rw [hs]

theorem head?_mem {α : Type} {l : List α} {a : α} (h : l.head? = some a) : a ∈ l := by
  cases l with
  | nil => cases h
  | cons x xs =>
      cases h
      exact List.mem_cons_self _ _

theorem money_award (s : TableState) : totalMoney (awardPotAndEnd s).1 = totalMoney s := by
  unfold awardPotAndEnd
  split
  · rfl
  · rename_i g hs
    split
    · rfl
    · rename_i w hw
      rcases activeIds_mem g s.players w (head?_mem hw) with ⟨p, hp, _, _⟩
      unfold totalMoney potOf
      rw [hs]
      dsimp only
      rw [sumChips_setP, hp]
      dsimp only
      ring

theorem sumChips_setP_pres (r : PId) (f : Player → Player)
    (hf : ∀ p, (f p).chips = p.chips) (l : List (PId × Player)) :
    sumChips (setP r f l) = sumChips l := by
  rw [sumChips_setP]
  cases lookupP r l with
  | none => simp
  | some p => simp [hf]

theorem sumChips_foldl_pres (f : Player → Player) (hf : ∀ p, (f p).chips = p.chips)
    (ws : List PId) (ps : List (PId × Player)) :
    sumChips (ws.foldl (fun a w => setP w f a) ps) = sumChips ps := by
  induction ws generalizing ps with
  | nil => rfl
  | cons w ws ih =>
      simp only [List.foldl_cons]
      rw [ih, sumChips_setP_pres _ _ hf]

theorem winnersBy_mem_apIds (solve : List Card → Int) (g : Round)
    (players : List (PId × Player)) :
    ∀ w ∈ winnersBy (showdownEvaluated solve g players), w ∈ activeIds g players := by
  have hfst : (showdownEvaluated solve g players).map Prod.fst = activeIds g players := by
    unfold showdownEvaluated
    refine filterMap_pair_fst _ _ ?_
    intro a ha
    rcases activeIds_mem g players a ha with ⟨p, hp, _, _⟩
    exact ⟨solve (p.cards ++ g.community), by rw [hp]⟩
  intro w hw
  rw [← hfst]
  cases hev : showdownEvaluated solve g players with
  | nil =>
      rw [hev] at hw
      cases hw
  | cons e es =>
      rw [hev] at hw
      unfold winnersBy at hw
      rcases List.mem_map.mp hw with ⟨x, hxf, hx1⟩
      exact hx1 ▸ List.mem_map_of_mem Prod.fst (List.mem_of_mem_filter hxf)

theorem winnersBy_length_pos (solve : List Card → Int) (g : Round)
    (players : List (PId × Player)) (hne : activeIds g players ≠ []) :
    1 ≤ (winnersBy (showdownEvaluated solve g players)).length := by
  have hfst : (showdownEvaluated solve g players).map Prod.fst = activeIds g players := by
    unfold showdownEvaluated
    refine filterMap_pair_fst _ _ ?_
    intro a ha
    rcases activeIds_mem g players a ha with ⟨p, hp, _, _⟩
    exact ⟨solve (p.cards ++ g.community), by rw [hp]⟩
  have hevne : showdownEvaluated solve g players ≠ [] := by
    intro h0
    rw [h0] at hfst
    exact hne (by simpa using hfst.symm)
  obtain ⟨e, es, hevc⟩ := List.exists_cons_of_ne_nil hevne
  have hmax_att : ∃ x ∈ e :: es, x.2 = (es.map Prod.snd).foldl max e.2 := by
    rcases foldl_max_mem (es.map Prod.snd) e.2 with h | h
    · exact ⟨e, by simp, h.symm⟩
    · rcases List.mem_map.mp h with ⟨x, hx, hxe⟩
      exact ⟨x, List.mem_cons_of_mem _ hx, hxe⟩
  apply List.length_pos.mpr
  rw [hevc]
  unfold winnersBy
  rcases hmax_att with ⟨x, hx, hxv⟩
  intro hnil
  have hmem : x ∈ (e :: es).filter (fun y => y.2 = (es.map Prod.snd).foldl max e.2) :=
    List.mem_filter.mpr ⟨hx, by simp [hxv]⟩
  rw [List.map_eq_nil_iff] at hnil
  rw [hnil] at hmem
  cases hmem

theorem money_showdown_le (solve : List Card → Int) (s : TableState) :
    totalMoney (finishShowdown solve s).1 ≤ totalMoney s := by
  unfold finishShowdown
  split
  · exact le_refl _
  · rename_i g hs
    split
    · exact le_refl _
    · rename_i hne'
      have hne : activeIds g s.players ≠ [] := by
        simpa [List.isEmpty_iff] using hne'
      have hwins_some : ∀ w ∈ winnersBy (showdownEvaluated solve g s.players),
          (lookupP w s.players).isSome := by
        intro w hw
        rcases activeIds_mem g s.players w (winnersBy_mem_apIds solve g s.players w hw)
          with ⟨p, hp, _, _⟩
        rw [hp]
        rfl
      have hlen1 := winnersBy_length_pos solve g s.players hne
      unfold totalMoney potOf
      rw [hs]
      dsimp only
      rw [sumChips_foldl_add _ _ _ hwins_some]
      have hn0 : (0 : Int) < ((winnersBy (showdownEvaluated solve g s.players)).length : Int) := by
        exact_mod_cast hlen1
      rw [Int.fdiv_eq_ediv _ (le_of_lt hn0)]
      have heq := Int.ediv_add_emod g.pot
        ((winnersBy (showdownEvaluated solve g s.players)).length : Int)
      have hr := Int.emod_nonneg g.pot (ne_of_gt hn0)
      linarith

theorem money_sbr (solve : List Card → Int) (s : TableState) (stage : String) (now : Int) :
    totalMoney (startBettingRound solve s stage now).1 = totalMoney s := by
  unfold startBettingRound
  split
  · rfl
  · rename_i g0 hs
    dsimp only
    repeat' split
    all_goals (
      first
        | rw [money_award]
        | rw [money_timer])
    all_goals (
      unfold totalMoney potOf
      rw [hs]
      dsimp only
      rw [sumChips_foldl_pres (fun p => { p with bet := 0 }) (fun p => rfl)])

theorem money_advance (solve : List Card → Int) (s : TableState) (kind : String) (now : Int)
    (hriver : ∀ g, s.game = some g → g.stage ≠ stRiver) :
    totalMoney (advanceTurnAfterAction solve s kind now).1 = totalMoney s := by
  unfold advanceTurnAfterAction
  split
  · rfl
  · rename_i g0 hs
    dsimp only
    repeat' split
    all_goals first
      | exact absurd (by assumption) (hriver g0 hs)
      | (try rw [money_award]
         try rw [money_sbr]
         try rw [money_timer]
         unfold totalMoney potOf
         rw [hs]
         try dsimp only
         try rfl)

theorem money_advance_le (solve : List Card → Int) (s : TableState) (kind : String)
    (now : Int) :
    totalMoney (advanceTurnAfterAction solve s kind now).1 ≤ totalMoney s := by
  unfold advanceTurnAfterAction
  split
  · exact le_refl _
  · rename_i g0 hs
    dsimp only
    repeat' split
    all_goals first
      | (apply le_of_eq
         try rw [money_award]
         try rw [money_sbr]
         try rw [money_timer]
         unfold totalMoney potOf
         rw [hs]
         all_goals dsimp only
         all_goals rfl)
      | exact le_trans (money_showdown_le _ _)
          (le_of_eq (by unfold totalMoney potOf; rw [hs]; try dsimp only; try rfl))

theorem money_process (solve : List Card → Int) (s : TableState) (pid : PId)
    (action : String) (amount now : Int)
    (hriver : ∀ g, s.game = some g → g.stage ≠ stRiver) :
    totalMoney (processAction solve s pid action amount now).1 = totalMoney s := by
  unfold processAction
  split
  · rfl
  · rename_i g0 hs
    split
    · rfl
    · split
      · rfl
      · have hr1 : ∀ (P : List (PId × Player)) (g2 : Round), g2.stage = g0.stage →
            ∀ g, ({ s with players := P, game := some g2 } : TableState).game = some g →
              g.stage ≠ stRiver := by
          intro P g2 hst g hg
          cases hg
          rw [hst]
          exact hriver g0 hs
        have hr2 : ∀ (g2 : Round), g2.stage = g0.stage →
            ∀ g, ({ s with game := some g2 } : TableState).game = some g →
              g.stage ≠ stRiver := by
          intro g2 hst g hg
          cases hg
          rw [hst]
          exact hriver g0 hs
        split
        · unfold totalMoney potOf
          rw [hs]
        · rename_i p hp
          split
          · dsimp only
            split
            · rw [money_award]
              unfold totalMoney potOf
              dsimp only
              rw [hs]
              dsimp only
              rw [sumChips_setP, hp]
              dsimp only
              ring
            · refine Eq.trans (money_advance solve _ aFold now (hr1 _ _ rfl)) ?_
              unfold totalMoney potOf
              dsimp only
              rw [hs]
              dsimp only
              rw [sumChips_setP, hp]
              dsimp only
              ring
          · split
            · dsimp only
              split
              · refine Eq.trans (money_advance solve _ action now (hr2 _ rfl)) ?_
                unfold totalMoney potOf
                rw [hs]
              · refine Eq.trans (money_advance solve _ action now (hr1 _ _ rfl)) ?_
                unfold totalMoney potOf
                rw [hs]
                dsimp only
                rw [sumChips_setP, hp]
                dsimp only
                ring
            · split
              · dsimp only
                split
                · rw [money_timer]
                  unfold totalMoney potOf
                  rw [hs]
                · refine Eq.trans (money_advance solve _ aRaise now ?_) ?_
                  · intro g hg
                    unfold applyRaise at hg
                    dsimp only at hg
                    cases hg
                    exact hriver g0 hs
                  · unfold applyRaise
                    dsimp only
                    unfold totalMoney potOf
                    rw [hs]
                    dsimp only
                    rw [sumChips_setP, hp]
                    dsimp only
                    ring
              · rw [money_timer]
                unfold totalMoney potOf
                rw [hs]

theorem money_process_le (solve : List Card → Int) (s : TableState) (pid : PId)
    (action : String) (amount now : Int) :
    totalMoney (processAction solve s pid action amount now).1 ≤ totalMoney s := by
  unfold processAction
  split
  · exact le_refl _
  · rename_i g0 hs
    split
    · exact le_refl _
    · split
      · exact le_refl _
      · split
        · apply le_of_eq
          unfold totalMoney potOf
          rw [hs]
        · rename_i p hp
          split
          · dsimp only
            split
            · apply le_of_eq
              rw [money_award]
              unfold totalMoney potOf
              dsimp only
              rw [hs]
              dsimp only
              rw [sumChips_setP, hp]
              dsimp only
              ring
            · refine le_trans (money_advance_le solve _ aFold now) (le_of_eq ?_)
              unfold totalMoney potOf
              dsimp only
              rw [hs]
              dsimp only
              rw [sumChips_setP, hp]
              dsimp only
              ring
          · split
            · dsimp only
              split
              · refine le_trans (money_advance_le solve _ action now) (le_of_eq ?_)
                unfold totalMoney potOf
                rw [hs]
              · refine le_trans (money_advance_le solve _ action now) (le_of_eq ?_)
                unfold totalMoney potOf
                rw [hs]
                dsimp only
                rw [sumChips_setP, hp]
                dsimp only
                ring
            · split
              · dsimp only
                split
                · apply le_of_eq
                  rw [money_timer]
                  unfold totalMoney potOf
                  rw [hs]
                · refine le_trans (money_advance_le solve _ aRaise now) (le_of_eq ?_)
                  unfold applyRaise
                  dsimp only
                  unfold totalMoney potOf
                  rw [hs]
                  dsimp only
                  rw [sumChips_setP, hp]
                  dsimp only
                  ring
              · apply le_of_eq
                rw [money_timer]
                unfold totalMoney potOf
                rw [hs]

theorem money_timeout (solve : List Card → Int) (s : TableState) (now : Int)
    (hriver : ∀ g, s.game = some g → g.stage ≠ stRiver) :
    totalMoney (onTimeout solve s now).1 = totalMoney s := by
  unfold onTimeout
  split
  · rfl
  · rename_i g0 hs
    split
    · rfl
    · rename_i so hso
      split
      · rfl
      · rename_i p hp
        split
        · rfl
        · dsimp only
          split
          · rw [money_award]
            unfold totalMoney potOf
            dsimp only
            rw [hs]
            dsimp only
            rw [sumChips_setP, hp]
            dsimp only
            ring
          · refine Eq.trans (money_advance solve _ aFold now ?_) ?_
            · exact fun g hg => hriver g hg
            · unfold totalMoney potOf
              dsimp only
              rw [hs]
              dsimp only
              rw [sumChips_setP, hp]
              dsimp only
              ring

theorem money_timeout_le (solve : List Card → Int) (s : TableState) (now : Int) :
    totalMoney (onTimeout solve s now).1 ≤ totalMoney s := by
  unfold onTimeout
  split
  · exact le_refl _
  · rename_i g0 hs
    split
    · exact le_refl _
    · rename_i so hso
      split
      · exact le_refl _
      · rename_i p hp
        split
        · exact le_refl _
        · dsimp only
          split
          · apply le_of_eq
            rw [money_award]
            unfold totalMoney potOf
            dsimp only
            rw [hs]
            dsimp only
            rw [sumChips_setP, hp]
            dsimp only
            ring
          · refine le_trans (money_advance_le solve _ aFold now) (le_of_eq ?_)
            unfold totalMoney potOf
            dsimp only
            rw [hs]
            dsimp only
            rw [sumChips_setP, hp]
            dsimp only
            ring

theorem lookup_setP_chips (r q : PId) (f : Player → Player)
    (hf : ∀ p, (f p).chips = p.chips) (l : List (PId × Player)) :
    (lookupP q (setP r f l)).map Player.chips = (lookupP q l).map Player.chips := by
  by_cases h : q = r
  · subst h
    rw [lookup_setP_same]
    cases lookupP q l <;> simp [hf]
  · rw [lookup_setP_ne _ _ _ _ h]

theorem dealPass_cons (a : PId × Nat) (so : List (PId × Nat))
    (st : List (PId × Player) × List Card) :
    dealPass (a :: so) st = dealPass so
      (match lookupP a.1 st.1 with
       | some p =>
           if p.active then
             (setP a.1 (fun q => { q with cards := q.cards ++ [st.2.getLastD dfltCard] }) st.1,
              st.2.dropLast)
           else st
       | none => st) := rfl

theorem dealStep_chipsView (a : PId × Nat) (st : List (PId × Player) × List Card)
    (pid : PId) :
    (lookupP pid ((match lookupP a.1 st.1 with
      | some p =>
          if p.active then
            (setP a.1 (fun q => { q with cards := q.cards ++ [st.2.getLastD dfltCard] }) st.1,
             st.2.dropLast)
          else st
      | none => st) : List (PId × Player) × List Card).1).map Player.chips
    = (lookupP pid st.1).map Player.chips := by
  split
  · split
    · exact lookup_setP_chips a.1 pid
        (fun q => { q with cards := q.cards ++ [st.2.getLastD dfltCard] }) (fun q => rfl) st.1
    · rfl
  · rfl

theorem dealPass_chipsView (so : List (PId × Nat)) :
    ∀ (st : List (PId × Player) × List Card) (pid : PId),
      (lookupP pid (dealPass so st).1).map Player.chips
        = (lookupP pid st.1).map Player.chips := by
  induction so with
  | nil =>
      intro st pid
      rfl
  | cons a so ih =>
      intro st pid
      rw [dealPass_cons, ih]
      exact dealStep_chipsView a st pid

theorem dealStep_sumChips (a : PId × Nat) (st : List (PId × Player) × List Card) :
    sumChips ((match lookupP a.1 st.1 with
      | some p =>
          if p.active then
            (setP a.1 (fun q => { q with cards := q.cards ++ [st.2.getLastD dfltCard] }) st.1,
             st.2.dropLast)
          else st
      | none => st) : List (PId × Player) × List Card).1 = sumChips st.1 := by
  split
  · split
    · exact sumChips_setP_pres a.1
        (fun q => { q with cards := q.cards ++ [st.2.getLastD dfltCard] }) (fun q => rfl) st.1
    · rfl
  · rfl

theorem dealPass_sumChips (so : List (PId × Nat)) :
    ∀ st : List (PId × Player) × List Card,
      sumChips (dealPass so st).1 = sumChips st.1 := by
  induction so with
  | nil =>
      intro st
      rfl
  | cons a so ih =>
      intro st
      rw [dealPass_cons, ih]
      exact dealStep_sumChips a st

theorem lookup_players0 (ps : List (PId × Player)) (pid : PId) :
    lookupP pid (ps.map (fun kp =>
      (kp.1, { kp.2 with
        cards := ([] : List Card),
        folded := kp.2.seat = none,
        active := kp.2.seat ≠ none,
        bet := (0 : Int) })))
    = (lookupP pid ps).map (fun p =>
        { p with
          cards := ([] : List Card),
          folded := p.seat = none,
          active := p.seat ≠ none,
          bet := (0 : Int) }) := by
  induction ps with
  | nil => rfl
  | cons kp rest ih =>
      obtain ⟨k, p⟩ := kp
      simp only [List.map_cons, lookupP]
      by_cases hk : k = pid
      · rw [if_pos hk, if_pos hk]
        rfl
      · rw [if_neg hk, if_neg hk]
        exact ih

theorem sumChips_players0 (ps : List (PId × Player)) :
    sumChips (ps.map (fun kp =>
      (kp.1, { kp.2 with
        cards := ([] : List Card),
        folded := kp.2.seat = none,
        active := kp.2.seat ≠ none,
        bet := (0 : Int) }))) = sumChips ps := by
  induction ps with
  | nil => rfl
  | cons kp rest ih =>
      simp only [sumChips, List.map_cons, List.sum_cons] at *
      rw [ih]

theorem money_startGame (s : TableState) (deck : List Card) (now : Int)
    (so0 so1 : PId × Nat) (psb pbb : Player)
    (hgame : s.game = none)
    (hseated : ¬(s.seats.filterMap id).length < 2)
    (h0 : (computeSeatOrder s.seats s.dealerIndex).get? 0 = some so0)
    (h1 : (computeSeatOrder s.seats s.dealerIndex).get? 1 = some so1)
    (hne01 : so0.1 ≠ so1.1)
    (hsb : lookupP so0.1 s.players = some psb) (h10 : 10 ≤ psb.chips)
    (hbb : lookupP so1.1 s.players = some pbb) (h20 : 20 ≤ pbb.chips) :
    totalMoney (startGame s deck now).1 = totalMoney s := by
  unfold startGame
  rw [hgame]
  dsimp only
  unfold startGameCore
  rw [hgame]
  dsimp only
  rw [if_neg hseated]
  try dsimp only
  rw [h0, h1]
  dsimp only
  rw [money_timer]
  unfold totalMoney potOf
  rw [hgame]
  dsimp only
  generalize hD : dealPass (computeSeatOrder s.seats s.dealerIndex)
    (dealPass (computeSeatOrder s.seats s.dealerIndex)
      (s.players.map (fun kp =>
        (kp.1, { kp.2 with
          cards := ([] : List Card),
          folded := kp.2.seat = none,
          active := kp.2.seat ≠ none,
          bet := (0 : Int) })), deck)) = dealt
  have hch0 : (lookupP so0.1 dealt.1).map Player.chips
      = (lookupP so0.1 s.players).map Player.chips := by
    rw [← hD, dealPass_chipsView, dealPass_chipsView]
    dsimp only
    rw [lookup_players0]
    cases lookupP so0.1 s.players <;> rfl
  have hch1 : (lookupP so1.1 dealt.1).map Player.chips
      = (lookupP so1.1 s.players).map Player.chips := by
    rw [← hD, dealPass_chipsView, dealPass_chipsView]
    dsimp only
    rw [lookup_players0]
    cases lookupP so1.1 s.players <;> rfl
  have hsum : sumChips dealt.1 = sumChips s.players := by
    rw [← hD, dealPass_sumChips, dealPass_sumChips]
    dsimp only
    exact sumChips_players0 s.players
  rw [hsb] at hch0
  rw [hbb] at hch1
  cases hl0 : lookupP so0.1 dealt.1 with
  | none =>
      rw [hl0] at hch0
      cases hch0
  | some p0 =>
      rw [hl0] at hch0
      cases hl1 : lookupP so1.1 dealt.1 with
      | none =>
          rw [hl1] at hch1
          cases hch1
      | some p1 =>
          rw [hl1] at hch1
          simp only [Option.map_some', Option.some.injEq] at hch0 hch1
          rw [sumChips_setP, lookup_setP_ne so0.1 so1.1 _ _ (fun h => hne01 h.symm), hl1,
              sumChips_setP, hl0, hsum]
          dsimp only
          rw [max_eq_right (by omega : (0 : Int) ≤ p0.chips - 10),
              max_eq_right (by omega : (0 : Int) ≤ p1.chips - 20)]
          ring

/-- C1 (amended): with both blind posters registered, distinct, and holding
at least their blind, posting the blinds at startGame conserves total money
(stacks plus pot); every subsequent accepted event (action or timeout) on a
state whose street is not the river preserves it exactly; every event can
only ever decrease it (the only decrease being the showdown remainder of
C7); hence over any event sequence money never increases.  The original
claim fails: a short-stacked blind poster has their stack clamped at zero
while the pot is credited the full blind, creating chips, and the showdown
remainder destroys chips. -/
theorem claim1_chip_conservation_amended (solve : List Card → Int) :
    (∀ (s : TableState) (deck : List Card) (now : Int) (so0 so1 : PId × Nat)
        (psb pbb : Player),
      s.game = none →
      ¬(s.seats.filterMap id).length < 2 →
      (computeSeatOrder s.seats s.dealerIndex).get? 0 = some so0 →
      (computeSeatOrder s.seats s.dealerIndex).get? 1 = some so1 →
      so0.1 ≠ so1.1 →
      lookupP so0.1 s.players = some psb → 10 ≤ psb.chips →
      lookupP so1.1 s.players = some pbb → 20 ≤ pbb.chips →
      totalMoney (startGame s deck now).1 = totalMoney s) ∧
    (∀ (s : TableState) (e : Ev) (g : Round),
      s.game = some g → g.stage ≠ stRiver →
      totalMoney (step solve s e).1 = totalMoney s) ∧
    (∀ (s : TableState) (e : Ev), totalMoney (step solve s e).1 ≤ totalMoney s) ∧
    (∀ (s : TableState) (evs : List Ev), totalMoney (run solve s evs) ≤ totalMoney s) := by
  refine ⟨?_, ?_, ?_, ?_⟩
  · intro s deck now so0 so1 psb pbb hgame hseated h0 h1 hne01 hsb h10 hbb h20
    exact money_startGame s deck now so0 so1 psb pbb hgame hseated h0 h1 hne01 hsb h10 hbb h20
  · intro s e g hg hst
    cases e with
    | act pid a amt now =>
        exact money_process solve s pid a amt now
          (fun g2 hg2 => by rw [hg] at hg2; cases hg2; exact hst)
    | timeout now =>
        exact money_timeout solve s now
          (fun g2 hg2 => by rw [hg] at hg2; cases hg2; exact hst)
  · intro s e
    cases e with
    | act pid a amt now => exact money_process_le solve s pid a amt now
    | timeout now => exact money_timeout_le solve s now
  · intro s evs
    induction evs generalizing s with
    | nil => exact le_refl _
    | cons e evs ih =>
        refine le_trans (ih (step solve s e).1) ?_
        cases e with
        | act pid a amt now => exact money_process_le solve s pid a amt now
        | timeout now => exact money_timeout_le solve s now

/-- C1 counterexample: small blind holds 5 chips, below the blind of 10.
Blind posting clamps the stack at 0 but credits the pot the whole 10, so
total money grows from 1005 to 1010: chips are created, refuting chip
conservation exactly in the case the claim singles out. -/
theorem claim1_counterexample :
    totalMoney csC1bad = 1005 ∧
    totalMoney (startGame csC1bad [] 0).1 = 1010 ∧
    (1010 : Int) ≠ 1005 := by
  refine ⟨rfl, rfl, by decide⟩

/-- Witness for C1 amended: a fully funded two-player start conserves money,
and a concrete in-hand event does not increase it. -/
theorem claim1_witness :
    totalMoney (startGame csC1ok [] 0).1 = totalMoney csC1ok ∧
    totalMoney (step solveW csW (Ev.act "b" aCall 0 0)).1 ≤ totalMoney csW :=
  ⟨(claim1_chip_conservation_amended solveW).1 csC1ok [] 0 ("a", 0) ("b", 1) pOk0 pOk1
      rfl (by decide) rfl rfl (by decide) rfl (by decide) rfl (by decide),
   (claim1_chip_conservation_amended solveW).2.2.1 csW (Ev.act "b" aCall 0 0)⟩

/-- Witness for C6: a one-pair hand strictly beats a high-card hand. -/
theorem claim6_witness :
    category (evaluate5 [⟨0, 0⟩, ⟨1, 1⟩, ⟨2, 2⟩, ⟨5, 0⟩, ⟨7, 3⟩]).handName
        < category (evaluate5 [⟨0, 0⟩, ⟨0, 1⟩, ⟨2, 2⟩, ⟨5, 0⟩, ⟨7, 3⟩]).handName ∧
    (evaluate5 [⟨0, 0⟩, ⟨1, 1⟩, ⟨2, 2⟩, ⟨5, 0⟩, ⟨7, 3⟩]).score
        < (evaluate5 [⟨0, 0⟩, ⟨0, 1⟩, ⟨2, 2⟩, ⟨5, 0⟩, ⟨7, 3⟩]).score :=
  ⟨by decide,
   claim6_category_ordering _ _ (by decide) (by decide) (by decide)⟩

end Poker
